import Mathlib

/-!
Verification of the sugoimaze maze generator and field runtime.

The repository evolves through several versions of the same Go package.
The passability model and tile compiler verified here follow the final
version of internal/game/fielddata.go (the one with two layer axes,
depth0 and depth1); the field runtime follows the final version of
internal/game/field.go (the one with a goalReached flag), which is paired
with the single-layer-axis variant of the tile data.

Go slices indexed [y][x] become a lookup function together with explicit
width and height; all compiled grids are rectangular, and every write the
compiler performs stays inside the allocated rectangle, so this is
faithful.  Go ints that can be negative at a query boundary (tile
coordinates handed to the passability queries) are modelled as Int;
quantities that the code keeps non-negative (layer indices, path counts)
are modelled as Nat.
-/

namespace G3

/-- Per-tile record of the final fielddata version: the per-w-layer slices
walls / ladders / switches / wallColors / ladderColors become functions
from the layer index. -/
structure Tile where
  walls : Nat → Bool
  ladders : Nat → Bool
  upward : Bool
  downward : Bool
  switches : Nat → Bool
  door : Bool
  doorUpper : Bool
  goal : Bool
  wallColors : Nat → Nat
  ladderColors : Nat → Nat
  doorColor : Nat

/-- The zero value of the tile struct: empty slices / false flags / color 0. -/
def Tile.empty : Tile :=
  ⟨fun _ => false, fun _ => false, false, false, fun _ => false,
   false, false, false, fun _ => 0, fun _ => 0, 0⟩

/-- The compiled field: tile grid with its dimensions and the two layer
depths.  `at0 x y` is Go's `f.tiles[y][x]`. -/
structure FieldData where
  widthT : Nat
  heightT : Nat
  depth0 : Nat
  depth1 : Nat
  at0 : Nat → Nat → Tile

/-- Bounds test shared by all passability queries: Go's
`y < 0 || len(f.tiles) <= y || x < 0 || len(f.tiles[y]) <= x` (negated). -/
def FieldData.inB (f : FieldData) (x y : Int) : Prop :=
  0 ≤ x ∧ x < (f.widthT : Int) ∧ 0 ≤ y ∧ y < (f.heightT : Int)

instance (f : FieldData) (x y : Int) : Decidable (f.inB x y) := by
  unfold FieldData.inB; infer_instance

/-- Tile lookup after the bounds test has passed. -/
def FieldData.tileAt (f : FieldData) (x y : Int) : Tile :=
  f.at0 x.toNat y.toNat

/-- canBeInTile of the final fielddata version. -/
def canBeInTile (f : FieldData) (x y : Int) (currentDepth0 currentDepth1 : Nat) : Bool :=
  if ¬ f.inB x y then false
  else
    let t := f.tileAt x y
    -- A ladder is passable, even though this is a wall.
    if t.ladders currentDepth1 &&
        (t.ladderColors currentDepth1 == 0 || t.ladderColors currentDepth1 - 1 == currentDepth0) then
      true
    -- A wall is not passable.
    else if t.walls currentDepth1 &&
        (t.wallColors currentDepth1 == 0 || !(t.wallColors currentDepth1 - 1 == currentDepth0)) then
      false
    else true

/-- canStandOnTile of the final fielddata version. -/
def canStandOnTile (f : FieldData) (x y : Int) (currentDepth0 currentDepth1 : Nat) : Bool :=
  if ¬ f.inB x y then false
  else
    let t := f.tileAt x y
    -- A player can stand on a ladder.
    if t.ladders currentDepth1 &&
        (t.ladderColors currentDepth1 == 0 || t.ladderColors currentDepth1 - 1 == currentDepth0) then
      true
    -- A player can stand on a wall.
    else if t.walls currentDepth1 &&
        (t.wallColors currentDepth1 == 0 || !(t.wallColors currentDepth1 - 1 == currentDepth0)) then
      true
    else false

/-- canGoUp of the final fielddata version. -/
def canGoUp (f : FieldData) (x y : Int) (currentDepth0 currentDepth1 : Nat) : Bool :=
  if ¬ f.inB x y then false
  else
    let t := f.tileAt x y
    if !t.ladders currentDepth1 then true
    else if t.ladderColors currentDepth1 > 0 && !(t.ladderColors currentDepth1 - 1 == currentDepth0) then
      true
    else !t.downward

/-- canGoDown of the final fielddata version. -/
def canGoDown (f : FieldData) (x y : Int) (currentDepth0 currentDepth1 : Nat) : Bool :=
  if ¬ f.inB x y then false
  else
    let t := f.tileAt x y
    if !t.ladders currentDepth1 then true
    else if t.ladderColors currentDepth1 > 0 && !(t.ladderColors currentDepth1 - 1 == currentDepth0) then
      true
    else !t.upward

/-- passable of the final fielddata version. -/
def passable (f : FieldData) (nextX nextY prevY : Int) (currentDepth0 currentDepth1 : Nat) : Bool :=
  if ¬ f.inB nextX nextY then false
  else if canBeInTile f nextX nextY currentDepth0 currentDepth1 = false then false
  else if canStandOnTile f nextX (nextY - 1) currentDepth0 currentDepth1 = false then false
  else if nextY > prevY ∧ canGoUp f nextX nextY currentDepth0 currentDepth1 = false then false
  else if nextY < prevY ∧ canGoDown f nextX nextY currentDepth0 currentDepth1 = false then false
  else true

/-- hasSwitch of the final fielddata version.  The Go code indexes the grid
without a bounds check (it would panic out of range); the total model reads
through `tileAt`. -/
def hasSwitch (f : FieldData) (x y : Int) (currentDepth1 : Nat) : Bool :=
  (f.tileAt x y).switches currentDepth1

/-- isGoal of the final fielddata version (also unchecked in Go). -/
def isGoal (f : FieldData) (x y : Int) : Bool :=
  (f.tileAt x y).goal

end G3

namespace G3

/-- Ladder layer-compatibility as tested by canGoUp / canGoDown: the ladder
for the selected w-layer is colorless, or its color pins it to the current
z-layer. -/
def ladderBlocks (f : FieldData) (x y : Int) (currentDepth0 currentDepth1 : Nat) : Prop :=
  (f.tileAt x y).ladders currentDepth1 = true ∧
    ((f.tileAt x y).ladderColors currentDepth1 = 0 ∨
      (f.tileAt x y).ladderColors currentDepth1 - 1 = currentDepth0)

instance (f : FieldData) (x y : Int) (d0 d1 : Nat) : Decidable (ladderBlocks f x y d0 d1) := by
  unfold ladderBlocks; infer_instance

lemma canGoDown_eq_false_iff (f : FieldData) (x y : Int) (d0 d1 : Nat) (hin : f.inB x y) :
    canGoDown f x y d0 d1 = false ↔
      (ladderBlocks f x y d0 d1 ∧ (f.tileAt x y).upward = true) := by
  unfold canGoDown ladderBlocks
  rw [if_neg (by simpa using hin)]
  rcases h1 : (f.tileAt x y).ladders d1 <;>
    rcases h2 : (f.tileAt x y).upward <;>
      rcases h3 : (f.tileAt x y).ladderColors d1 with _ | c <;>
        simp [h1, h2, h3]

lemma canGoUp_eq_false_iff (f : FieldData) (x y : Int) (d0 d1 : Nat) (hin : f.inB x y) :
    canGoUp f x y d0 d1 = false ↔
      (ladderBlocks f x y d0 d1 ∧ (f.tileAt x y).downward = true) := by
  unfold canGoUp ladderBlocks
  rw [if_neg (by simpa using hin)]
  rcases h1 : (f.tileAt x y).ladders d1 <;>
    rcases h2 : (f.tileAt x y).downward <;>
      rcases h3 : (f.tileAt x y).ladderColors d1 with _ | c <;>
        simp [h1, h2, h3]

lemma passable_eq_false_of_canGoDown (f : FieldData) (nextX nextY prevY : Int)
    (d0 d1 : Nat) (hdown : nextY < prevY)
    (hcgd : canGoDown f nextX nextY d0 d1 = false) :
    passable f nextX nextY prevY d0 d1 = false := by
  unfold passable
  split
  · rfl
  · split
    · rfl
    · split
      · rfl
      · split
        · rfl
        · rw [if_pos ⟨hdown, hcgd⟩]

lemma passable_eq_false_of_canGoUp (f : FieldData) (nextX nextY prevY : Int)
    (d0 d1 : Nat) (hup : nextY > prevY)
    (hcgu : canGoUp f nextX nextY d0 d1 = false) :
    passable f nextX nextY prevY d0 d1 = false := by
  unfold passable
  split
  · rfl
  · split
    · rfl
    · split
      · rfl
      · rw [if_pos ⟨hup, hcgu⟩]

end G3

namespace G3

/-- A 3x3 test field whose tile (1,1) is a one-way-up ladder pinned to
z-layer 0 (ladderColors = 1), with a colorless wall below it at (1,0). -/
def cexField : FieldData :=
  { widthT := 3
    heightT := 3
    depth0 := 2
    depth1 := 1
    at0 := fun x y =>
      if x = 1 ∧ y = 1 then
        { Tile.empty with
            ladders := fun w => w = 0
            ladderColors := fun w => if w = 0 then 1 else 0
            upward := true }
      else if x = 1 ∧ y = 0 then
        { Tile.empty with walls := fun w => w = 0 }
      else Tile.empty }

/-- A 3x3 test field whose tile (1,1) is a colorless one-way-up ladder,
with a colorless wall below it at (1,0). -/
def wField : FieldData :=
  { widthT := 3
    heightT := 3
    depth0 := 2
    depth1 := 1
    at0 := fun x y =>
      if x = 1 ∧ y = 1 then
        { Tile.empty with ladders := fun w => w = 0, upward := true }
      else if x = 1 ∧ y = 0 then
        { Tile.empty with walls := fun w => w = 0 }
      else Tile.empty }

end G3

namespace G3

/-- C3 counterexample: the claim asserts that a downward move onto a tile
flagged one-way-up is rejected by passable regardless of layer selection.
In cexField, tile (1,1) is a one-way-up ladder pinned to z-layer 0; with
z-layer 1 selected, the downward move from y = 2 onto (1,1) is permitted. -/
theorem oneWayUp_down_move_permitted_cex :
    (cexField.tileAt 1 1).upward = true ∧ cexField.inB 1 1 ∧
      passable cexField 1 1 2 1 0 = true := by
  refine ⟨by decide, by decide, by decide⟩

/-- C3 (amended): for every in-bounds tile, canGoDown is false exactly when
the tile carries, for the selected w-layer, a ladder that is colorless or
colored for the current z-layer and is flagged one-way-up; canGoUp is false
exactly under the symmetric one-way-down condition; and a downward
(resp. upward) move onto such a layer-compatible one-way-up
(resp. one-way-down) ladder tile is rejected by passable. -/
theorem canGo_characterization (f : FieldData) (x y prevY : Int) (d0 d1 : Nat)
    (hin : f.inB x y) :
    (canGoDown f x y d0 d1 = false ↔
        ladderBlocks f x y d0 d1 ∧ (f.tileAt x y).upward = true) ∧
    (canGoUp f x y d0 d1 = false ↔
        ladderBlocks f x y d0 d1 ∧ (f.tileAt x y).downward = true) ∧
    (y < prevY → ladderBlocks f x y d0 d1 → (f.tileAt x y).upward = true →
        passable f x y prevY d0 d1 = false) ∧
    (y > prevY → ladderBlocks f x y d0 d1 → (f.tileAt x y).downward = true →
        passable f x y prevY d0 d1 = false) := by
  refine ⟨canGoDown_eq_false_iff f x y d0 d1 hin, canGoUp_eq_false_iff f x y d0 d1 hin, ?_, ?_⟩
  · intro hmove hb hup
    exact passable_eq_false_of_canGoDown f x y prevY d0 d1 hmove
      ((canGoDown_eq_false_iff f x y d0 d1 hin).2 ⟨hb, hup⟩)
  · intro hmove hb hdn
    exact passable_eq_false_of_canGoUp f x y prevY d0 d1 hmove
      ((canGoUp_eq_false_iff f x y d0 d1 hin).2 ⟨hb, hdn⟩)

/-- Witness for the amended C3 theorem at a concrete input: in wField the
tile (1,1) is a colorless one-way-up ladder, and the downward move onto it
is rejected. -/
theorem canGo_characterization_witness : passable wField 1 1 2 0 0 = false :=
  (canGo_characterization wField 1 1 2 0 0 (by decide)).2.2.1 (by decide) (by decide) (by decide)

/-- C4: every passability query on an out-of-bounds coordinate answers "not
passable" (false) instead of failing. -/
theorem oob_queries_not_passable (f : FieldData) (x y prevY : Int) (d0 d1 : Nat)
    (h : ¬ f.inB x y) :
    passable f x y prevY d0 d1 = false ∧ canBeInTile f x y d0 d1 = false ∧
      canStandOnTile f x y d0 d1 = false ∧ canGoUp f x y d0 d1 = false ∧
      canGoDown f x y d0 d1 = false := by
  refine ⟨?_, ?_, ?_, ?_, ?_⟩ <;>
    simp only [passable, canBeInTile, canStandOnTile, canGoUp, canGoDown, if_pos h]

/-- Witness for the C4 theorem at the concrete out-of-bounds coordinate
(-1, 0) of cexField. -/
theorem oob_queries_not_passable_witness :
    passable cexField (-1) 0 0 1 0 = false ∧ canBeInTile cexField (-1) 0 1 0 = false ∧
      canStandOnTile cexField (-1) 0 1 0 = false ∧ canGoUp cexField (-1) 0 1 0 = false ∧
      canGoDown cexField (-1) 0 1 0 = false :=
  oob_queries_not_passable cexField (-1) 0 0 1 0 (by decide)

end G3

namespace G2

/-- Per-tile record of the single-layer-axis fielddata version that the
final field runtime (field.go with goalReached) is paired with. -/
structure Tile where
  wall : Bool
  ladder : Bool
  upward : Bool
  downward : Bool
  sw : Bool
  goal : Bool
  color : Nat

/-- The zero value of the tile struct. -/
def Tile.empty : Tile := ⟨false, false, false, false, false, false, 0⟩

/-- Tile grid with dimensions and the single layer depth. -/
structure FieldData where
  widthT : Nat
  heightT : Nat
  depth : Nat
  at0 : Nat → Nat → Tile

/-- Bounds test of the passability queries. -/
def FieldData.inB (f : FieldData) (x y : Int) : Prop :=
  0 ≤ x ∧ x < (f.widthT : Int) ∧ 0 ≤ y ∧ y < (f.heightT : Int)

instance (f : FieldData) (x y : Int) : Decidable (f.inB x y) := by
  unfold FieldData.inB; infer_instance

/-- Tile lookup after the bounds test has passed. -/
def FieldData.tileAt (f : FieldData) (x y : Int) : Tile :=
  f.at0 x.toNat y.toNat

/-- canBeInTile of the single-layer-axis fielddata version. -/
def canBeInTile (f : FieldData) (x y : Int) (currentDepth : Nat) : Bool :=
  if ¬ f.inB x y then false
  else
    let t := f.tileAt x y
    if t.ladder && (t.color == 0 || t.color - 1 == currentDepth) then true
    else if t.wall && (t.color == 0 || !(t.color - 1 == currentDepth)) then false
    else true

/-- canStandOnTile of the single-layer-axis fielddata version. -/
def canStandOnTile (f : FieldData) (x y : Int) (currentDepth : Nat) : Bool :=
  if ¬ f.inB x y then false
  else
    let t := f.tileAt x y
    if t.ladder && (t.color == 0 || t.color - 1 == currentDepth) then true
    else if t.wall && (t.color == 0 || !(t.color - 1 == currentDepth)) then true
    else false

/-- canGoUp of the single-layer-axis fielddata version (no layer args). -/
def canGoUp (f : FieldData) (x y : Int) : Bool :=
  if ¬ f.inB x y then false
  else !(f.tileAt x y).downward

/-- canGoDown of the single-layer-axis fielddata version. -/
def canGoDown (f : FieldData) (x y : Int) : Bool :=
  if ¬ f.inB x y then false
  else !(f.tileAt x y).upward

/-- passable of the single-layer-axis fielddata version; prevX is accepted
but unused, exactly as in the source. -/
def passable (f : FieldData) (nextX nextY prevX prevY : Int) (currentDepth : Nat) : Bool :=
  if ¬ f.inB nextX nextY then false
  else if canBeInTile f nextX nextY currentDepth = false then false
  else if canStandOnTile f nextX (nextY - 1) currentDepth = false then false
  else if nextY > prevY ∧ canGoUp f nextX nextY = false then false
  else if nextY < prevY ∧ canGoDown f nextX nextY = false then false
  else true

/-- hasSwitch (unchecked indexing in the source; total here). -/
def hasSwitch (f : FieldData) (x y : Int) : Bool :=
  (f.tileAt x y).sw

/-- isGoal (unchecked indexing in the source; total here). -/
def isGoal (f : FieldData) (x y : Int) : Bool :=
  (f.tileAt x y).goal

/-- Keys sampled once per tick by Field.Update: the four held arrow keys
and the just-pressed space key. -/
structure Input where
  up : Bool
  down : Bool
  left : Bool
  right : Bool
  space : Bool
deriving DecidableEq

/-- Field runtime state of the final field.go version. -/
structure Field where
  playerX : Int
  playerY : Int
  dx : Int
  dy : Int
  currentDepth : Nat
  goalReached : Bool
deriving DecidableEq

/-- One animation tick for one axis: the offset moves away from zero by
v = 3 and, on crossing GridSize = 16, the position advances one tile and
the offset resets.  The source performs the x and y instances of this
computation inline; they do not interact, so the shared helper is
extensionally the same. -/
def animStep (p d : Int) : Int × Int :=
  let d1 := if d > 0 then d + 3 else if d < 0 then d - 3 else d
  let p1 := if d1 ≥ 16 then p + 1 else p
  let d2 := if d1 ≥ 16 then 0 else d1
  let p2 := if d2 ≤ -16 then p1 - 1 else p1
  let d3 := if d2 ≤ -16 then 0 else d2
  (p2, d3)

/-- The next x coordinate requested by the held keys (left then right,
as the source reads them). -/
def nextXOf (inp : Input) (prevX : Int) : Int :=
  let x1 := if inp.left then prevX - 1 else prevX
  if inp.right then x1 + 1 else x1

/-- The next y coordinate requested by the held keys (up then down). -/
def nextYOf (inp : Input) (prevY : Int) : Int :=
  let y1 := if inp.up then prevY + 1 else prevY
  if inp.down then y1 - 1 else y1

/-- Field.Update of the final field.go version. -/
def update (f : FieldData) (inp : Input) (s : Field) : Field :=
  if s.goalReached then s
  else if s.dx ≠ 0 ∨ s.dy ≠ 0 then
    let ax := animStep s.playerX s.dx
    let ay := animStep s.playerY s.dy
    let gr := if isGoal f ax.1 ay.1 then true else s.goalReached
    { s with playerX := ax.1, playerY := ay.1, dx := ax.2, dy := ay.2, goalReached := gr }
  else
    let prevX := s.playerX
    let prevY := s.playerY
    let depth1 :=
      if inp.space ∧ hasSwitch f prevX prevY then (s.currentDepth + 1) % f.depth
      else s.currentDepth
    let nextX := nextXOf inp prevX
    let nextY := nextYOf inp prevY
    if passable f nextX nextY prevX prevY depth1 = false then
      { s with currentDepth := depth1 }
    else
      let dx1 := if nextX > prevX then 3 else if nextX < prevX then -3 else s.dx
      let dy1 := if nextY > prevY then 3 else if nextY < prevY then -3 else s.dy
      { s with currentDepth := depth1, dx := dx1, dy := dy1 }

/-- States reachable by the runtime from the initial state created by
NewField: player at tile (1,1), no animation offset, depth 0, goal not
reached. -/
inductive Reachable (f : FieldData) : Field → Prop
  | init : Reachable f ⟨1, 1, 0, 0, 0, false⟩
  | step (s : Field) (inp : Input) : Reachable f s → Reachable f (update f inp s)

end G2

namespace G2

/-- A 3x3 test field with a switch on tile (1,1) and nothing else, so that
standing-room checks fail everywhere. -/
def demoField : FieldData :=
  { widthT := 3
    heightT := 3
    depth := 2
    at0 := fun x y =>
      if x = 1 ∧ y = 1 then { Tile.empty with sw := true }
      else Tile.empty }

/-- The initial runtime state produced by NewField. -/
def idleState : Field := ⟨1, 1, 0, 0, 0, false⟩

/-- A tick whose only intent is the just-pressed space key. -/
def spaceInput : Input := ⟨false, false, false, false, true⟩

/-- Direction of an animation offset (the sign used by the bounds
invariant): 1, -1 or 0. -/
def dirOf (d : Int) : Int := if d > 0 then 1 else if d < 0 then -1 else 0

/-- Positional part of the runtime invariant: the player tile and the tile
the current animation offset is heading to are both inside the grid. -/
def WithinGrid (f : FieldData) (s : Field) : Prop :=
  f.inB s.playerX s.playerY ∧
    f.inB (s.playerX + dirOf s.dx) (s.playerY + dirOf s.dy)

lemma animStep_bounds (w p d : Int) (h0 : 0 ≤ p) (h1 : p < w)
    (h2 : 0 ≤ p + dirOf d) (h3 : p + dirOf d < w) :
    0 ≤ (animStep p d).1 ∧ (animStep p d).1 < w ∧
      0 ≤ (animStep p d).1 + dirOf (animStep p d).2 ∧
      (animStep p d).1 + dirOf (animStep p d).2 < w := by
  unfold dirOf at h2 h3
  unfold animStep dirOf
  split_ifs at * <;> simp_all <;> omega

lemma passable_inB (f : FieldData) (nx ny px py : Int) (d : Nat)
    (h : passable f nx ny px py d = true) : f.inB nx ny := by
  by_contra hc
  unfold passable at h
  rw [if_pos hc] at h
  cases h

lemma nextXOf_shape (inp : Input) (p : Int) :
    nextXOf inp p = p - 1 ∨ nextXOf inp p = p ∨ nextXOf inp p = p + 1 := by
  simp only [nextXOf]
  split_ifs <;> omega

lemma nextYOf_shape (inp : Input) (p : Int) :
    nextYOf inp p = p - 1 ∨ nextYOf inp p = p ∨ nextYOf inp p = p + 1 := by
  simp only [nextYOf]
  split_ifs <;> omega

lemma withinGrid_update (f : FieldData) (inp : Input) (s : Field)
    (h : WithinGrid f s) : WithinGrid f (update f inp s) := by
  unfold update
  by_cases hg : s.goalReached = true
  · rw [if_pos hg]; exact h
  · rw [if_neg hg]
    by_cases hm : s.dx ≠ 0 ∨ s.dy ≠ 0
    · rw [if_pos hm]
      obtain ⟨⟨hx0, hx1, hy0, hy1⟩, tx0, tx1, ty0, ty1⟩ := h
      have hx := animStep_bounds (f.widthT : Int) s.playerX s.dx hx0 hx1 tx0 tx1
      have hy := animStep_bounds (f.heightT : Int) s.playerY s.dy hy0 hy1 ty0 ty1
      exact ⟨⟨hx.1, hx.2.1, hy.1, hy.2.1⟩, hx.2.2.1, hx.2.2.2, hy.2.2.1, hy.2.2.2⟩
    · rw [if_neg hm]
      push_neg at hm
      by_cases hp :
          passable f (nextXOf inp s.playerX) (nextYOf inp s.playerY) s.playerX s.playerY
            (if inp.space ∧ hasSwitch f s.playerX s.playerY then
              (s.currentDepth + 1) % f.depth
            else s.currentDepth) = false
      · rw [if_pos hp]
        exact h
      · rw [if_neg hp]
        have hpass := eq_true_of_ne_false hp
        have hnb := passable_inB f _ _ _ _ _ hpass
        refine ⟨h.1, ?_⟩
        have hxeq :
            s.playerX +
              dirOf (if nextXOf inp s.playerX > s.playerX then 3
                else if nextXOf inp s.playerX < s.playerX then -3 else s.dx) =
              nextXOf inp s.playerX := by
          rcases nextXOf_shape inp s.playerX with hs | hs | hs <;>
            rw [hs] <;> unfold dirOf <;> split_ifs <;> omega
        have hyeq :
            s.playerY +
              dirOf (if nextYOf inp s.playerY > s.playerY then 3
                else if nextYOf inp s.playerY < s.playerY then -3 else s.dy) =
              nextYOf inp s.playerY := by
          rcases nextYOf_shape inp s.playerY with hs | hs | hs <;>
            rw [hs] <;> unfold dirOf <;> split_ifs <;> omega
        simpa [hxeq, hyeq] using hnb

end G2

namespace G2

/-- C5 counterexample: in the idle state on a switch tile, a tick that
presses space while the requested movement (staying in place) is not
permitted still mutates the Field: the selected layer flips, so the tick is
not a no-op. -/
theorem blocked_tick_changes_state_cex :
    idleState.dx = 0 ∧ idleState.dy = 0 ∧ idleState.goalReached = false ∧
      passable demoField (nextXOf spaceInput 1) (nextYOf spaceInput 1) 1 1 0 = false ∧
      passable demoField (nextXOf spaceInput 1) (nextYOf spaceInput 1) 1 1 1 = false ∧
      update demoField spaceInput idleState ≠ idleState := by
  refine ⟨rfl, rfl, rfl, by decide, by decide, by decide⟩

/-- C5 (amended): in the idle state, when no layer toggle fires (space not
pressed or the current tile has no switch) and the requested movement is
not permitted by passable, the tick leaves the Field unchanged. -/
theorem blocked_tick_noop (f : FieldData) (inp : Input) (s : Field)
    (hdx : s.dx = 0) (hdy : s.dy = 0) (hg : s.goalReached = false)
    (ht : ¬ (inp.space = true ∧ hasSwitch f s.playerX s.playerY = true))
    (hb : passable f (nextXOf inp s.playerX) (nextYOf inp s.playerY) s.playerX s.playerY
        s.currentDepth = false) :
    update f inp s = s := by
  unfold update
  rw [if_neg (by simp [hg]), if_neg (by simp [hdx, hdy])]
  dsimp only
  rw [if_neg ht, if_pos hb]

/-- Witness for the amended C5 theorem: an idle state away from any switch
with a blocked move is a no-op. -/
theorem blocked_tick_noop_witness :
    update demoField ⟨true, false, false, false, false⟩ ⟨0, 0, 0, 0, 0, false⟩ =
      ⟨0, 0, 0, 0, 0, false⟩ :=
  blocked_tick_noop demoField ⟨true, false, false, false, false⟩ ⟨0, 0, 0, 0, 0, false⟩
    rfl rfl rfl (by decide) (by decide)

/-- C6: in the idle state, a tick that presses space advances the selected
layer by one modulo depth exactly when the player's current tile carries a
switch, and leaves it unchanged otherwise. -/
theorem toggle_advances_depth_iff_switch (f : FieldData) (inp : Input) (s : Field)
    (hdx : s.dx = 0) (hdy : s.dy = 0) (hg : s.goalReached = false)
    (hsp : inp.space = true) :
    (update f inp s).currentDepth =
      if hasSwitch f s.playerX s.playerY = true then (s.currentDepth + 1) % f.depth
      else s.currentDepth := by
  unfold update
  rw [if_neg (by simp [hg]), if_neg (by simp [hdx, hdy])]
  dsimp only
  split
  · next hcond =>
    rw [if_pos hcond.2]
    split <;> rfl
  · next hcond =>
    rw [if_neg (fun hsw => hcond ⟨hsp, hsw⟩)]
    split <;> rfl

/-- Witness for the C6 theorem: on the switch tile of demoField, the space
tick advances the layer from 0 to 1. -/
theorem toggle_advances_depth_iff_switch_witness :
    (update demoField spaceInput idleState).currentDepth =
      if hasSwitch demoField idleState.playerX idleState.playerY = true then
        (idleState.currentDepth + 1) % demoField.depth
      else idleState.currentDepth :=
  toggle_advances_depth_iff_switch demoField spaceInput idleState rfl rfl rfl rfl

/-- C9: once goalReached is set, Update returns immediately, so every
subsequent tick leaves the Field state (position, offsets, layer and the
flag itself) unchanged. -/
theorem goal_reached_terminal (f : FieldData) (inp : Input) (s : Field)
    (h : s.goalReached = true) : update f inp s = s := by
  unfold update
  rw [if_pos h]

/-- Witness for the C9 theorem at a concrete goal-reached state. -/
theorem goal_reached_terminal_witness :
    update demoField spaceInput ⟨1, 1, 0, 0, 0, true⟩ = ⟨1, 1, 0, 0, 0, true⟩ :=
  goal_reached_terminal demoField spaceInput ⟨1, 1, 0, 0, 0, true⟩ rfl

/-- C10: every reachable Field state keeps the player tile inside the grid,
and one more tick keeps it inside as well.  The coordinates Update hands to
the unchecked accessors are exactly these: hasSwitch receives the idle
state's (playerX, playerY), and isGoal receives the player position that
the animation branch just computed, which is the player position of the
updated state; both are therefore always in range. -/
theorem update_indices_in_range (f : FieldData) (s : Field)
    (hw : 1 < f.widthT) (hh : 1 < f.heightT) (hr : Reachable f s) :
    f.inB s.playerX s.playerY ∧
      ∀ inp : Input, f.inB (update f inp s).playerX (update f inp s).playerY := by
  have key : ∀ t, Reachable f t → WithinGrid f t := by
    intro t ht
    induction ht with
    | init =>
      simp only [WithinGrid, FieldData.inB, dirOf]
      norm_num
      omega
    | step s inp _ ih => exact withinGrid_update f inp s ih
  exact ⟨(key s hr).1, fun inp => (key _ (Reachable.step s inp hr)).1⟩

/-- Witness for the C10 theorem at the initial state of demoField with a
space tick. -/
theorem update_indices_in_range_witness :
    demoField.inB (update demoField spaceInput idleState).playerX
      (update demoField spaceInput idleState).playerY :=
  (update_indices_in_range demoField idleState (by decide) (by decide) Reachable.init).2
    spaceInput

end G2

namespace Gen

/-- Passage state of one directed room edge (type `passage` in the final
fielddata version). -/
inductive Passage where
  | wall
  | passable
  | oneWayForward
  | oneWayBackward
deriving DecidableEq

/-- Room record of the final fielddata version. -/
structure Room where
  passageX : Passage
  passageY : Passage
  passageZ : Passage
  passageW : Passage
  pathCount : Nat
deriving DecidableEq

/-- The zero value of the room struct: all passages wall, unvisited. -/
def Room.default : Room := ⟨.wall, .wall, .wall, .wall, 0⟩

/-- Room coordinate (x, y, z, w). -/
structure Pos4 where
  x : Nat
  y : Nat
  z : Nat
  w : Nat
deriving DecidableEq

/-- The nested slice rooms[w][z][y][x] as a total function on coordinates;
generation and compilation only ever touch in-range coordinates. -/
def Rooms : Type := Pos4 → Room

/-- Go's rooms[w][z][y][x]. -/
def roomAt (r : Rooms) (w z y x : Nat) : Room := r ⟨x, y, z, w⟩

/-- Pointwise room update. -/
def setRoom (r : Rooms) (p : Pos4) (fn : Room → Room) : Rooms :=
  fun q => if q = p then fn (r p) else r q

end Gen

namespace G3

/-- Per-w-layer wall index write (Go `t.walls[w] = true`). -/
def Tile.setWall (t : Tile) (w : Nat) : Tile :=
  { t with walls := fun i => if i = w then true else t.walls i }

/-- Go `t.wallColors[w] = c`. -/
def Tile.setWallColor (t : Tile) (w c : Nat) : Tile :=
  { t with wallColors := fun i => if i = w then c else t.wallColors i }

/-- Go `for i := range t.walls { t.walls[i] = true }` on a slice of length
d1. -/
def Tile.setWallsAll (t : Tile) (d1 : Nat) : Tile :=
  { t with walls := fun i => if i < d1 then true else t.walls i }

/-- Go `t.ladders[w] = true`. -/
def Tile.setLadder (t : Tile) (w : Nat) : Tile :=
  { t with ladders := fun i => if i = w then true else t.ladders i }

/-- Go `t.ladderColors[w] = c`. -/
def Tile.setLadderColor (t : Tile) (w c : Nat) : Tile :=
  { t with ladderColors := fun i => if i = w then c else t.ladderColors i }

/-- Go `t.switches[w] = true`. -/
def Tile.setSwitch (t : Tile) (w : Nat) : Tile :=
  { t with switches := fun i => if i = w then true else t.switches i }

/-- Tile grid under construction, addressed as grid x y (Go tiles[y][x]). -/
def TGrid : Type := Nat → Nat → Tile

/-- Write one grid cell. -/
def modifyT (g : TGrid) (x y : Nat) (fn : Tile → Tile) : TGrid :=
  fun x0 y0 => if x0 = x ∧ y0 = y then fn (g x y) else g x0 y0

/-- Go `for i := 0; i < n; i++ { body }` over grid states: applies step 0,
then step 1, ..., then step (n-1). -/
def foldRange (step : Nat → TGrid → TGrid) : Nat → TGrid → TGrid
  | 0, g => g
  | n + 1, g => step n (foldRange step n g)

/-- roomXGridCount of the final version: 6 for depth1 = 1, 8 for
depth1 = 2; any other depth1 panics. -/
def roomXGridCount (depth1 : Nat) : Option Nat :=
  if depth1 = 1 then some 6 else if depth1 = 2 then some 8 else none

/-- wallColors of the final version for one w (colors[w], oks[w]); note the
source reads the z = 0 and z = 1 layers directly. -/
def wallColorsAt (rooms : Gen.Rooms) (roomX roomY w : Nat) : Nat × Bool :=
  let x0 := (Gen.roomAt rooms w 0 roomY roomX).passageX = Gen.Passage.wall
  let x1 := (Gen.roomAt rooms w 1 roomY roomX).passageX = Gen.Passage.wall
  (if ¬ x0 ∧ x1 then 1 else if x0 ∧ ¬ x1 then 2 else 0, decide (x0 ∨ x1))

/-- ladderColors of the final version for one w. -/
def ladderColorsAt (rooms : Gen.Rooms) (roomX roomY w : Nat) : Nat × Bool :=
  let y0 := (Gen.roomAt rooms w 0 roomY roomX).passageY ≠ Gen.Passage.wall
  let y1 := (Gen.roomAt rooms w 1 roomY roomX).passageY ≠ Gen.Passage.wall
  (if y0 ∧ ¬ y1 then 1 else if ¬ y0 ∧ y1 then 2 else 0, decide (y0 ∨ y1))

/-- doorColor of the final version. -/
def doorColorAt (rooms : Gen.Rooms) (roomX roomY : Nat) : Nat × Bool :=
  let w0 := (Gen.roomAt rooms 0 0 roomY roomX).passageW ≠ Gen.Passage.wall
  let w1 := (Gen.roomAt rooms 0 1 roomY roomX).passageW ≠ Gen.Passage.wall
  (if w0 ∧ ¬ w1 then 1 else if ¬ w0 ∧ w1 then 2 else 0, decide (w0 ∨ w1))

/-- The per-w passageYs scan of setTilesForRoom: folds the z layers in
ascending order, records the first non-wall y-passage and fails (Go panic)
if a later layer disagrees. -/
def passageYScan (rooms : Gen.Rooms) (roomX roomY w : Nat) : Nat → Option Gen.Passage
  | 0 => some Gen.Passage.wall
  | z + 1 =>
    match passageYScan rooms roomX roomY w z with
    | none => none
    | some acc =>
      let p := (Gen.roomAt rooms w z roomY roomX).passageY
      if p = Gen.Passage.wall then some acc
      else if acc = Gen.Passage.wall then some p
      else if acc ≠ p then none
      else some p

/-- All per-w passageYs, failing if any w panics. -/
def passageYsAll (rooms : Gen.Rooms) (roomX roomY depth0 : Nat) :
    Nat → Option (Nat → Gen.Passage)
  | 0 => some fun _ => Gen.Passage.wall
  | w + 1 =>
    match passageYsAll rooms roomX roomY depth0 w with
    | none => none
    | some f =>
      match passageYScan rooms roomX roomY w depth0 with
      | none => none
      | some p => some fun i => if i = w then p else f i

/-- Wall-column stage of setTilesForRoom ("Add walls."). -/
def roomWallsStage (depth1 c : Nat) (rooms : Gen.Rooms) (roomX roomY : Nat) (g : TGrid) :
    TGrid :=
  let colors1 := fun w => (wallColorsAt rooms roomX roomY w).1
  let oks1 := fun w => (wallColorsAt rooms roomX roomY w).2
  foldRange (fun j gg =>
    let x := roomX * c + c - 1 + 1 - (depth1 - 1)
    let y := roomY * 3 + j + 1
    if ∀ w, w < depth1 → oks1 w = true ∧ colors1 w = 0 then
      foldRange (fun w g2 => modifyT g2 (x + (depth1 - 1)) y (fun t => t.setWall w)) depth1 gg
    else
      foldRange (fun w g2 =>
        if oks1 w then
          modifyT g2 (x + w) y (fun t => (t.setWall w).setWallColor w (colors1 w))
        else g2) depth1 gg) 2 g

/-- Ceiling stage of setTilesForRoom ("Add a ceiling."). -/
def roomCeilStage (depth1 c : Nat) (roomX roomY : Nat) (g : TGrid) : TGrid :=
  foldRange (fun i gg =>
    let x := roomX * c + i + 1
    let y := (roomY + 1) * 3 - 1 + 1
    foldRange (fun w g2 => modifyT g2 x y (fun t => t.setWall w)) depth1 gg) c g

/-- Ladder stage of setTilesForRoom ("Add ladders."), given the already
scanned per-w y-passages. -/
def roomLadderStage (depth1 c : Nat) (rooms : Gen.Rooms) (roomX roomY : Nat)
    (pys : Nat → Gen.Passage) (g : TGrid) : TGrid :=
  let colors2 := fun w => (ladderColorsAt rooms roomX roomY w).1
  let oks2 := fun w => (ladderColorsAt rooms roomX roomY w).2
  foldRange (fun j gg =>
    let y := roomY * 3 + j + 1
    foldRange (fun w g2 =>
      if oks2 w then
        let x := roomX * c + 1 + (roomY + w) % 2 + 1
        modifyT g2 x y (fun t =>
          let t1 := (t.setLadder w).setLadderColor w (colors2 w)
          let t2 :=
            if pys w = Gen.Passage.oneWayForward then { t1 with upward := true } else t1
          if pys w = Gen.Passage.oneWayBackward then { t2 with downward := true } else t2)
      else g2) depth1 gg) 3 g

/-- Switch stage of setTilesForRoom ("Add switches."). -/
def roomSwitchStage (depth1 c : Nat) (rooms : Gen.Rooms) (roomX roomY : Nat) (g : TGrid) :
    TGrid :=
  foldRange (fun w gg =>
    if (Gen.roomAt rooms w 0 roomY roomX).passageZ ≠ Gen.Passage.wall then
      modifyT gg (roomX * c + 3 + w + 1) (roomY * 3 + 1) (fun t => t.setSwitch w)
    else gg) depth1 g

/-- Door stage of setTilesForRoom ("Add doors."). -/
def roomDoorStage (c : Nat) (rooms : Gen.Rooms) (roomX roomY : Nat) (g : TGrid) : TGrid :=
  let dc := doorColorAt rooms roomX roomY
  if dc.2 then
    let x := roomX * c + 5 + 1
    let y := roomY * 3 + 1
    modifyT (modifyT g x y (fun t => { t with door := true, doorColor := dc.1 })) x (y + 1)
      (fun t => { t with doorUpper := true, doorColor := dc.1 })
  else g

/-- setTilesForRoom of the final version (roomYGridCount = 3, both edge
offsets 1, c = roomXGridCount).  Fails (Go panic) when the per-w ladder
passage scan finds disagreeing non-wall y-passages. -/
def setTilesForRoom (depth0 depth1 c : Nat) (rooms : Gen.Rooms) (roomX roomY : Nat)
    (g : TGrid) : Option TGrid :=
  match passageYsAll rooms roomX roomY depth0 depth1 with
  | none => none
  | some pys =>
    some (roomDoorStage c rooms roomX roomY
      (roomSwitchStage depth1 c rooms roomX roomY
        (roomLadderStage depth1 c rooms roomX roomY pys
          (roomCeilStage depth1 c roomX roomY
            (roomWallsStage depth1 c rooms roomX roomY g)))))

/-- Inner x loop of setTiles over one room row (ascending x). -/
def roomsRowLoop (depth0 depth1 c : Nat) (rooms : Gen.Rooms) (y : Nat) :
    Nat → TGrid → Option TGrid
  | 0, g => some g
  | x + 1, g =>
    match roomsRowLoop depth0 depth1 c rooms y x g with
    | none => none
    | some g2 => setTilesForRoom depth0 depth1 c rooms x y g2

/-- Outer y loop of setTiles over all room rows (ascending y). -/
def roomsRowsLoop (depth0 depth1 c : Nat) (rooms : Gen.Rooms) (width : Nat) :
    Nat → TGrid → Option TGrid
  | 0, g => some g
  | y + 1, g =>
    match roomsRowsLoop depth0 depth1 c rooms width y g with
    | none => none
    | some g2 => roomsRowLoop depth0 depth1 c rooms y width g2

/-- Outside-wall pass of setTiles: the bottom row (tile row 0), the left
column and the far corner cell get walls for every w-layer. -/
def perimeterGrid (width height depth1 c : Nat) : TGrid :=
  let gridW := width * c + 1
  let gridH := height * 3 + 2
  let g0 : TGrid := fun _ _ => Tile.empty
  let g1 := foldRange (fun x gg => modifyT gg x 0 (fun t => t.setWallsAll depth1)) gridW g0
  let g2 := foldRange (fun y gg => modifyT gg 0 y (fun t => t.setWallsAll depth1)) gridH g1
  modifyT g2 (gridW - 1) (gridH - 1) (fun t => t.setWallsAll depth1)

/-- The grid right before the room loop: outside walls plus the single
goal tile at column gridW - c - 1 of the last row. -/
def baseGrid (width height depth1 c : Nat) : TGrid :=
  modifyT (perimeterGrid width height depth1 c) (width * c + 1 - c - 1) (height * 3 + 2 - 1)
    (fun t => { t with goal := true })

/-- setTiles of the final version: allocate the grid, draw the outside
walls (bottom row, left column and the far corner cell), place the single
goal tile, then compile every room block. -/
def setTiles (width height depth0 depth1 : Nat) (rooms : Gen.Rooms) : Option FieldData :=
  match roomXGridCount depth1 with
  | none => none
  | some c =>
    match roomsRowsLoop depth0 depth1 c rooms width height
        (baseGrid width height depth1 c) with
    | none => none
    | some g5 => some ⟨width * c + 1, height * 3 + 2, depth0, depth1, g5⟩

end G3

namespace G3

/-- The grids g and g' carry the same goal flags. -/
def goalEqT (g g2 : TGrid) : Prop := ∀ x y, (g2 x y).goal = (g x y).goal

/-- Every wall flag set in g is still set in g'. -/
def wallsMonoT (g g2 : TGrid) : Prop :=
  ∀ x y i, (g x y).walls i = true → (g2 x y).walls i = true

lemma goalEqT_refl (g : TGrid) : goalEqT g g := fun _ _ => rfl

lemma goalEqT_trans {g1 g2 g3 : TGrid} (h1 : goalEqT g1 g2) (h2 : goalEqT g2 g3) :
    goalEqT g1 g3 := fun x y => (h2 x y).trans (h1 x y)

lemma wallsMonoT_refl (g : TGrid) : wallsMonoT g g := fun _ _ _ h => h

lemma wallsMonoT_trans {g1 g2 g3 : TGrid} (h1 : wallsMonoT g1 g2) (h2 : wallsMonoT g2 g3) :
    wallsMonoT g1 g3 := fun x y i h => h2 x y i (h1 x y i h)

lemma modifyT_goalEq (g : TGrid) (x y : Nat) (fn : Tile → Tile)
    (h : ∀ t, (fn t).goal = t.goal) : goalEqT g (modifyT g x y fn) := by
  intro x0 y0
  unfold modifyT
  split
  · next heq => rw [h, heq.1, heq.2]
  · rfl

lemma modifyT_wallsMono (g : TGrid) (x y : Nat) (fn : Tile → Tile)
    (h : ∀ t i, t.walls i = true → (fn t).walls i = true) :
    wallsMonoT g (modifyT g x y fn) := by
  intro x0 y0 i hw
  unfold modifyT
  split
  · next heq => exact h _ i (by rw [heq.1, heq.2] at hw; exact hw)
  · exact hw

lemma foldRange_goalEq (step : Nat → TGrid → TGrid) (n : Nat) (g : TGrid)
    (h : ∀ i gg, goalEqT gg (step i gg)) : goalEqT g (foldRange step n g) := by
  induction n with
  | zero => exact goalEqT_refl g
  | succ n ih => exact goalEqT_trans ih (h n (foldRange step n g))

lemma foldRange_wallsMono (step : Nat → TGrid → TGrid) (n : Nat) (g : TGrid)
    (h : ∀ i gg, wallsMonoT gg (step i gg)) : wallsMonoT g (foldRange step n g) := by
  induction n with
  | zero => exact wallsMonoT_refl g
  | succ n ih => exact wallsMonoT_trans ih (h n (foldRange step n g))

lemma roomWallsStage_goalEq (depth1 c : Nat) (rooms : Gen.Rooms) (rx ry : Nat) (g : TGrid) :
    goalEqT g (roomWallsStage depth1 c rooms rx ry g) := by
  refine foldRange_goalEq _ 2 g ?_
  intro j gg
  dsimp only
  split
  · exact foldRange_goalEq _ depth1 gg (fun w g2 => modifyT_goalEq _ _ _ _ (fun t => rfl))
  · refine foldRange_goalEq _ depth1 gg ?_
    intro w g2
    split
    · exact modifyT_goalEq _ _ _ _ (fun t => rfl)
    · exact goalEqT_refl g2

lemma roomCeilStage_goalEq (depth1 c : Nat) (rx ry : Nat) (g : TGrid) :
    goalEqT g (roomCeilStage depth1 c rx ry g) := by
  refine foldRange_goalEq _ c g ?_
  intro i gg
  exact foldRange_goalEq _ depth1 gg (fun w g2 => modifyT_goalEq _ _ _ _ (fun t => rfl))

lemma roomLadderStage_goalEq (depth1 c : Nat) (rooms : Gen.Rooms) (rx ry : Nat)
    (pys : Nat → Gen.Passage) (g : TGrid) :
    goalEqT g (roomLadderStage depth1 c rooms rx ry pys g) := by
  refine foldRange_goalEq _ 3 g ?_
  intro j gg
  refine foldRange_goalEq _ depth1 gg ?_
  intro w g2
  dsimp only
  split
  · refine modifyT_goalEq _ _ _ _ ?_
    intro t
    dsimp only
    split <;> split <;> rfl
  · exact goalEqT_refl g2

lemma roomSwitchStage_goalEq (depth1 c : Nat) (rooms : Gen.Rooms) (rx ry : Nat) (g : TGrid) :
    goalEqT g (roomSwitchStage depth1 c rooms rx ry g) := by
  refine foldRange_goalEq _ depth1 g ?_
  intro w gg
  dsimp only
  split
  · exact modifyT_goalEq _ _ _ _ (fun t => rfl)
  · exact goalEqT_refl gg

lemma roomDoorStage_goalEq (c : Nat) (rooms : Gen.Rooms) (rx ry : Nat) (g : TGrid) :
    goalEqT g (roomDoorStage c rooms rx ry g) := by
  unfold roomDoorStage
  dsimp only
  split
  · exact goalEqT_trans
      (modifyT_goalEq g (rx * c + 5 + 1) (ry * 3 + 1)
        (fun t => { t with door := true, doorColor := (doorColorAt rooms rx ry).1 })
        (fun t => rfl))
      (modifyT_goalEq _ (rx * c + 5 + 1) (ry * 3 + 1 + 1)
        (fun t => { t with doorUpper := true, doorColor := (doorColorAt rooms rx ry).1 })
        (fun t => rfl))
  · exact goalEqT_refl g

lemma setTilesForRoom_goalEq (depth0 depth1 c : Nat) (rooms : Gen.Rooms)
    (roomX roomY : Nat) (g g2 : TGrid)
    (h : setTilesForRoom depth0 depth1 c rooms roomX roomY g = some g2) :
    goalEqT g g2 := by
  unfold setTilesForRoom at h
  rcases hp : passageYsAll rooms roomX roomY depth0 depth1 with _ | pys <;> rw [hp] at h
  · cases h
  · rw [Option.some.injEq] at h
    subst h
    exact goalEqT_trans (roomWallsStage_goalEq depth1 c rooms roomX roomY g)
      (goalEqT_trans (roomCeilStage_goalEq depth1 c roomX roomY _)
        (goalEqT_trans (roomLadderStage_goalEq depth1 c rooms roomX roomY pys _)
          (goalEqT_trans (roomSwitchStage_goalEq depth1 c rooms roomX roomY _)
            (roomDoorStage_goalEq c rooms roomX roomY _))))

lemma setWall_wallsMono (w : Nat) (t : Tile) (i : Nat) (hw : t.walls i = true) :
    (t.setWall w).walls i = true := by
  unfold Tile.setWall
  dsimp only
  split <;> simp [hw]

lemma roomWallsStage_wallsMono (depth1 c : Nat) (rooms : Gen.Rooms) (rx ry : Nat)
    (g : TGrid) : wallsMonoT g (roomWallsStage depth1 c rooms rx ry g) := by
  refine foldRange_wallsMono _ 2 g ?_
  intro j gg
  dsimp only
  split
  · exact foldRange_wallsMono _ depth1 gg (fun w g2 =>
      modifyT_wallsMono _ _ _ _ (fun t i hw => setWall_wallsMono w t i hw))
  · refine foldRange_wallsMono _ depth1 gg ?_
    intro w g2
    split
    · exact modifyT_wallsMono _ _ _ _ (fun t i hw => setWall_wallsMono w t i hw)
    · exact wallsMonoT_refl g2

lemma roomCeilStage_wallsMono (depth1 c : Nat) (rx ry : Nat) (g : TGrid) :
    wallsMonoT g (roomCeilStage depth1 c rx ry g) := by
  refine foldRange_wallsMono _ c g ?_
  intro i gg
  exact foldRange_wallsMono _ depth1 gg (fun w g2 =>
    modifyT_wallsMono _ _ _ _ (fun t j hw => setWall_wallsMono w t j hw))

lemma roomLadderStage_wallsMono (depth1 c : Nat) (rooms : Gen.Rooms) (rx ry : Nat)
    (pys : Nat → Gen.Passage) (g : TGrid) :
    wallsMonoT g (roomLadderStage depth1 c rooms rx ry pys g) := by
  refine foldRange_wallsMono _ 3 g ?_
  intro j gg
  refine foldRange_wallsMono _ depth1 gg ?_
  intro w g2
  dsimp only
  split
  · refine modifyT_wallsMono _ _ _ _ ?_
    intro t i hw
    dsimp only
    split <;> split <;> simp [Tile.setLadder, Tile.setLadderColor, hw]
  · exact wallsMonoT_refl g2

lemma roomSwitchStage_wallsMono (depth1 c : Nat) (rooms : Gen.Rooms) (rx ry : Nat)
    (g : TGrid) : wallsMonoT g (roomSwitchStage depth1 c rooms rx ry g) := by
  refine foldRange_wallsMono _ depth1 g ?_
  intro w gg
  dsimp only
  split
  · exact modifyT_wallsMono _ _ _ _ (by
      intro t i hw
      unfold Tile.setSwitch
      simpa using hw)
  · exact wallsMonoT_refl gg

lemma roomDoorStage_wallsMono (c : Nat) (rooms : Gen.Rooms) (rx ry : Nat) (g : TGrid) :
    wallsMonoT g (roomDoorStage c rooms rx ry g) := by
  unfold roomDoorStage
  dsimp only
  split
  · exact wallsMonoT_trans
      (modifyT_wallsMono g (rx * c + 5 + 1) (ry * 3 + 1)
        (fun t => { t with door := true, doorColor := (doorColorAt rooms rx ry).1 })
        (fun t i hw => hw))
      (modifyT_wallsMono _ (rx * c + 5 + 1) (ry * 3 + 1 + 1)
        (fun t => { t with doorUpper := true, doorColor := (doorColorAt rooms rx ry).1 })
        (fun t i hw => hw))
  · exact wallsMonoT_refl g

lemma setTilesForRoom_wallsMono (depth0 depth1 c : Nat) (rooms : Gen.Rooms)
    (roomX roomY : Nat) (g g2 : TGrid)
    (h : setTilesForRoom depth0 depth1 c rooms roomX roomY g = some g2) :
    wallsMonoT g g2 := by
  unfold setTilesForRoom at h
  rcases hp : passageYsAll rooms roomX roomY depth0 depth1 with _ | pys <;> rw [hp] at h
  · cases h
  · rw [Option.some.injEq] at h
    subst h
    exact wallsMonoT_trans (roomWallsStage_wallsMono depth1 c rooms roomX roomY g)
      (wallsMonoT_trans (roomCeilStage_wallsMono depth1 c roomX roomY _)
        (wallsMonoT_trans (roomLadderStage_wallsMono depth1 c rooms roomX roomY pys _)
          (wallsMonoT_trans (roomSwitchStage_wallsMono depth1 c rooms roomX roomY _)
            (roomDoorStage_wallsMono c rooms roomX roomY _))))

end G3

namespace G3

lemma roomsRowLoop_goalEq (depth0 depth1 c : Nat) (rooms : Gen.Rooms) (y : Nat) :
    ∀ (n : Nat) (g g2 : TGrid),
      roomsRowLoop depth0 depth1 c rooms y n g = some g2 → goalEqT g g2 := by
  intro n
  induction n with
  | zero =>
    intro g g2 h
    rw [roomsRowLoop, Option.some.injEq] at h
    subst h
    exact goalEqT_refl g
  | succ n ih =>
    intro g g2 h
    rw [roomsRowLoop] at h
    rcases hmid : roomsRowLoop depth0 depth1 c rooms y n g with _ | gmid <;> rw [hmid] at h
    · cases h
    · exact goalEqT_trans (ih g gmid hmid)
        (setTilesForRoom_goalEq depth0 depth1 c rooms n y gmid g2 h)

lemma roomsRowsLoop_goalEq (depth0 depth1 c : Nat) (rooms : Gen.Rooms) (width : Nat) :
    ∀ (n : Nat) (g g2 : TGrid),
      roomsRowsLoop depth0 depth1 c rooms width n g = some g2 → goalEqT g g2 := by
  intro n
  induction n with
  | zero =>
    intro g g2 h
    rw [roomsRowsLoop, Option.some.injEq] at h
    subst h
    exact goalEqT_refl g
  | succ n ih =>
    intro g g2 h
    rw [roomsRowsLoop] at h
    rcases hmid : roomsRowsLoop depth0 depth1 c rooms width n g with _ | gmid <;> rw [hmid] at h
    · cases h
    · exact goalEqT_trans (ih g gmid hmid)
        (roomsRowLoop_goalEq depth0 depth1 c rooms n width gmid g2 h)

lemma roomsRowLoop_wallsMono (depth0 depth1 c : Nat) (rooms : Gen.Rooms) (y : Nat) :
    ∀ (n : Nat) (g g2 : TGrid),
      roomsRowLoop depth0 depth1 c rooms y n g = some g2 → wallsMonoT g g2 := by
  intro n
  induction n with
  | zero =>
    intro g g2 h
    rw [roomsRowLoop, Option.some.injEq] at h
    subst h
    exact wallsMonoT_refl g
  | succ n ih =>
    intro g g2 h
    rw [roomsRowLoop] at h
    rcases hmid : roomsRowLoop depth0 depth1 c rooms y n g with _ | gmid <;> rw [hmid] at h
    · cases h
    · exact wallsMonoT_trans (ih g gmid hmid)
        (setTilesForRoom_wallsMono depth0 depth1 c rooms n y gmid g2 h)

lemma roomsRowsLoop_wallsMono (depth0 depth1 c : Nat) (rooms : Gen.Rooms) (width : Nat) :
    ∀ (n : Nat) (g g2 : TGrid),
      roomsRowsLoop depth0 depth1 c rooms width n g = some g2 → wallsMonoT g g2 := by
  intro n
  induction n with
  | zero =>
    intro g g2 h
    rw [roomsRowsLoop, Option.some.injEq] at h
    subst h
    exact wallsMonoT_refl g
  | succ n ih =>
    intro g g2 h
    rw [roomsRowsLoop] at h
    rcases hmid : roomsRowsLoop depth0 depth1 c rooms width n g with _ | gmid <;> rw [hmid] at h
    · cases h
    · exact wallsMonoT_trans (ih g gmid hmid)
        (roomsRowLoop_wallsMono depth0 depth1 c rooms n width gmid g2 h)

end G3

namespace G3

lemma foldRange_row_walls (d1 : Nat) (g : TGrid) (n x i : Nat) (hx : x < n) (hi : i < d1) :
    ((foldRange (fun x gg => modifyT gg x 0 (fun t => t.setWallsAll d1)) n g) x 0).walls i =
      true := by
  induction n with
  | zero => omega
  | succ n ih =>
    rw [foldRange]
    by_cases hxn : x = n
    · subst hxn
      unfold modifyT
      dsimp only
      rw [if_pos ⟨rfl, rfl⟩]
      unfold Tile.setWallsAll
      dsimp only
      rw [if_pos hi]
    · have hx2 : x < n := by omega
      unfold modifyT
      dsimp only
      rw [if_neg (fun hc => hxn hc.1)]
      exact ih hx2

lemma foldRange_col_walls (d1 : Nat) (g : TGrid) (n y i : Nat) (hy : y < n) (hi : i < d1) :
    ((foldRange (fun y gg => modifyT gg 0 y (fun t => t.setWallsAll d1)) n g) 0 y).walls i =
      true := by
  induction n with
  | zero => omega
  | succ n ih =>
    rw [foldRange]
    by_cases hyn : y = n
    · subst hyn
      unfold modifyT
      dsimp only
      rw [if_pos ⟨rfl, rfl⟩]
      unfold Tile.setWallsAll
      dsimp only
      rw [if_pos hi]
    · have hy2 : y < n := by omega
      unfold modifyT
      dsimp only
      rw [if_neg (fun hc => hyn hc.2)]
      exact ih hy2

lemma setWallsAll_wallsMono (d1 : Nat) (t : Tile) (i : Nat) (hw : t.walls i = true) :
    (t.setWallsAll d1).walls i = true := by
  unfold Tile.setWallsAll
  dsimp only
  split <;> simp [hw]

lemma perimeterGrid_row0 (width height depth1 c : Nat) (x i : Nat)
    (hx : x < width * c + 1) (hi : i < depth1) :
    ((perimeterGrid width height depth1 c) x 0).walls i = true := by
  unfold perimeterGrid
  have h1 := foldRange_row_walls depth1 (fun _ _ => Tile.empty) (width * c + 1) x i hx hi
  have h2 := foldRange_wallsMono
    (fun y gg => modifyT gg 0 y (fun t => t.setWallsAll depth1)) (height * 3 + 2) _
    (fun j gg => modifyT_wallsMono gg 0 j _ (fun t k hw => setWallsAll_wallsMono depth1 t k hw))
    x 0 i h1
  exact modifyT_wallsMono _ (width * c + 1 - 1) (height * 3 + 2 - 1) _
    (fun t k hw => setWallsAll_wallsMono depth1 t k hw) x 0 i h2

lemma perimeterGrid_col0 (width height depth1 c : Nat) (y i : Nat)
    (hy : y < height * 3 + 2) (hi : i < depth1) :
    ((perimeterGrid width height depth1 c) 0 y).walls i = true := by
  unfold perimeterGrid
  have h2 := foldRange_col_walls depth1
    (foldRange (fun x gg => modifyT gg x 0 (fun t => t.setWallsAll depth1)) (width * c + 1)
      (fun _ _ => Tile.empty))
    (height * 3 + 2) y i hy hi
  exact modifyT_wallsMono _ (width * c + 1 - 1) (height * 3 + 2 - 1) _
    (fun t k hw => setWallsAll_wallsMono depth1 t k hw) 0 y i h2

lemma perimeterGrid_corner (width height depth1 c : Nat) (i : Nat) (hi : i < depth1) :
    ((perimeterGrid width height depth1 c) (width * c + 1 - 1) (height * 3 + 2 - 1)).walls i =
      true := by
  unfold perimeterGrid
  unfold modifyT
  dsimp only
  rw [if_pos ⟨rfl, rfl⟩]
  unfold Tile.setWallsAll
  dsimp only
  rw [if_pos hi]

lemma perimeterGrid_goal_false (width height depth1 c : Nat) (x y : Nat) :
    ((perimeterGrid width height depth1 c) x y).goal = false := by
  have h : goalEqT (fun _ _ => Tile.empty) (perimeterGrid width height depth1 c) := by
    unfold perimeterGrid
    exact goalEqT_trans
      (foldRange_goalEq (fun x gg => modifyT gg x 0 (fun t => t.setWallsAll depth1))
        (width * c + 1) (fun _ _ => Tile.empty)
        (fun i gg => modifyT_goalEq gg i 0 (fun t => t.setWallsAll depth1) (fun t => rfl)))
      (goalEqT_trans
        (foldRange_goalEq (fun y gg => modifyT gg 0 y (fun t => t.setWallsAll depth1))
          (height * 3 + 2) _
          (fun j gg => modifyT_goalEq gg 0 j (fun t => t.setWallsAll depth1) (fun t => rfl)))
        (modifyT_goalEq _ (width * c + 1 - 1) (height * 3 + 2 - 1)
          (fun t => t.setWallsAll depth1) (fun t => rfl)))
  rw [h x y]
  rfl

lemma baseGrid_goal (width height depth1 c : Nat) (x y : Nat) :
    ((baseGrid width height depth1 c) x y).goal = true ↔
      (x = width * c + 1 - c - 1 ∧ y = height * 3 + 2 - 1) := by
  unfold baseGrid modifyT
  dsimp only
  split
  · next hcond => simp [hcond.1, hcond.2]
  · next hcond =>
    rw [perimeterGrid_goal_false]
    exact iff_of_false (by simp) hcond

lemma baseGrid_walls_of_perimeter (width height depth1 c : Nat) (x y i : Nat)
    (hw : ((perimeterGrid width height depth1 c) x y).walls i = true) :
    ((baseGrid width height depth1 c) x y).walls i = true := by
  unfold baseGrid
  exact modifyT_wallsMono _ _ _ (fun t => { t with goal := true }) (fun t k h => h) x y i hw

end G3

namespace G3

/-- A wall write performed by one foldRange iteration survives to the end
of the fold when every iteration is wall-monotone. -/
lemma foldRange_establish (step : Nat → TGrid → TGrid) (n k : Nat) (hk : k < n)
    (hmono : ∀ j gg, wallsMonoT gg (step j gg)) (x y i : Nat)
    (hset : ∀ gg, ((step k gg) x y).walls i = true) (g : TGrid) :
    ((foldRange step n g) x y).walls i = true := by
  induction n with
  | zero => omega
  | succ n ih =>
    rw [foldRange]
    by_cases hkn : k = n
    · subst hkn
      exact hset _
    · exact hmono n _ x y i (ih (by omega))

/-- The per-w wall fold sets the wall flag of every w-layer at its cell. -/
lemma foldRange_setWall_at (X Y d1 i : Nat) (hi : i < d1) (g : TGrid) :
    ((foldRange (fun w g2 => modifyT g2 X Y (fun t => t.setWall w)) d1 g) X Y).walls i =
      true := by
  refine foldRange_establish _ d1 i hi ?_ X Y i ?_ g
  · intro j gg
    exact modifyT_wallsMono gg X Y (fun t => t.setWall j)
      (fun t k hw => setWall_wallsMono j t k hw)
  · intro gg
    dsimp only
    unfold modifyT
    dsimp only
    rw [if_pos ⟨rfl, rfl⟩]
    unfold Tile.setWall
    dsimp only
    rw [if_pos rfl]

/-- When every w-layer of a room column reads a non-colored wall, the wall
stage walls the rightmost tile column of the room block at rows j = 0, 1. -/
lemma roomWallsStage_rightmost (depth1 c : Nat) (rooms : Gen.Rooms) (rx ry : Nat)
    (g : TGrid)
    (hall : ∀ w, w < depth1 →
      (wallColorsAt rooms rx ry w).2 = true ∧ (wallColorsAt rooms rx ry w).1 = 0)
    (hc1 : 1 ≤ c) (hdc : depth1 - 1 ≤ c) (j : Nat) (hj : j < 2) (i : Nat)
    (hi : i < depth1) :
    ((roomWallsStage depth1 c rooms rx ry g) (rx * c + c) (ry * 3 + j + 1)).walls i =
      true := by
  have hxeq : rx * c + c - 1 + 1 - (depth1 - 1) + (depth1 - 1) = rx * c + c := by omega
  unfold roomWallsStage
  dsimp only
  refine foldRange_establish
    (fun j gg =>
      if ∀ w, w < depth1 → (wallColorsAt rooms rx ry w).2 = true ∧
          (wallColorsAt rooms rx ry w).1 = 0 then
        foldRange (fun w g2 => modifyT g2
          (rx * c + c - 1 + 1 - (depth1 - 1) + (depth1 - 1)) (ry * 3 + j + 1)
          (fun t => t.setWall w)) depth1 gg
      else
        foldRange (fun w g2 =>
          if (wallColorsAt rooms rx ry w).2 = true then
            modifyT g2 (rx * c + c - 1 + 1 - (depth1 - 1) + w) (ry * 3 + j + 1)
              (fun t => (t.setWall w).setWallColor w (wallColorsAt rooms rx ry w).1)
          else g2) depth1 gg)
    2 j hj ?_ (rx * c + c) (ry * 3 + j + 1) i ?_ g
  · intro j2 gg
    dsimp only
    by_cases hcond : ∀ w, w < depth1 → (wallColorsAt rooms rx ry w).2 = true ∧
        (wallColorsAt rooms rx ry w).1 = 0
    · rw [if_pos hcond]
      exact foldRange_wallsMono _ depth1 gg (fun w g2 =>
        modifyT_wallsMono _ _ _ _ (fun t k hw => setWall_wallsMono w t k hw))
    · rw [if_neg hcond]
      refine foldRange_wallsMono _ depth1 gg ?_
      intro w g2
      by_cases hok : (wallColorsAt rooms rx ry w).2 = true
      · rw [if_pos hok]
        exact modifyT_wallsMono _ _ _ _ (fun t k hw => setWall_wallsMono w t k hw)
      · rw [if_neg hok]
        exact wallsMonoT_refl g2
  · intro gg
    dsimp only
    rw [if_pos hall, hxeq]
    exact foldRange_setWall_at (rx * c + c) (ry * 3 + j + 1) depth1 i hi gg

/-- The ceiling stage walls the rightmost tile column of the room block at
row j = 2. -/
lemma roomCeilStage_rightmost (depth1 c : Nat) (rx ry : Nat) (g : TGrid) (hc1 : 1 ≤ c)
    (i : Nat) (hi : i < depth1) :
    ((roomCeilStage depth1 c rx ry g) (rx * c + c) (ry * 3 + 2 + 1)).walls i = true := by
  have hxeq : rx * c + (c - 1) + 1 = rx * c + c := by omega
  have hyeq : (ry + 1) * 3 - 1 + 1 = ry * 3 + 2 + 1 := by omega
  unfold roomCeilStage
  refine foldRange_establish _ c (c - 1) (by omega) ?_ (rx * c + c) (ry * 3 + 2 + 1) i
    ?_ g
  · intro i2 gg
    dsimp only
    exact foldRange_wallsMono _ depth1 gg (fun w g2 =>
      modifyT_wallsMono _ _ _ _ (fun t k hw => setWall_wallsMono w t k hw))
  · intro gg
    dsimp only
    rw [hxeq, hyeq]
    exact foldRange_setWall_at (rx * c + c) (ry * 3 + 2 + 1) depth1 i hi gg

/-- setTilesForRoom walls the rightmost tile column over its three room
rows when the room's rightmost x-passages all read as non-colored walls. -/
lemma setTilesForRoom_rightmost (depth0 depth1 c : Nat) (rooms : Gen.Rooms)
    (rx ry : Nat) (g g2 : TGrid)
    (h : setTilesForRoom depth0 depth1 c rooms rx ry g = some g2)
    (hall : ∀ w, w < depth1 →
      (wallColorsAt rooms rx ry w).2 = true ∧ (wallColorsAt rooms rx ry w).1 = 0)
    (hc1 : 1 ≤ c) (hdc : depth1 - 1 ≤ c) (j : Nat) (hj : j < 3) (i : Nat)
    (hi : i < depth1) :
    (g2 (rx * c + c) (ry * 3 + j + 1)).walls i = true := by
  unfold setTilesForRoom at h
  rcases hp : passageYsAll rooms rx ry depth0 depth1 with _ | pys <;> rw [hp] at h
  · cases h
  · rw [Option.some.injEq] at h
    subst h
    by_cases hj2 : j < 2
    · have hwall := roomWallsStage_rightmost depth1 c rooms rx ry g hall hc1 hdc j hj2 i hi
      exact (wallsMonoT_trans (roomCeilStage_wallsMono depth1 c rx ry _)
        (wallsMonoT_trans (roomLadderStage_wallsMono depth1 c rooms rx ry pys _)
          (wallsMonoT_trans (roomSwitchStage_wallsMono depth1 c rooms rx ry _)
            (roomDoorStage_wallsMono c rooms rx ry _)))) _ _ i hwall
    · have hj3 : j = 2 := by omega
      subst hj3
      have hwall := roomCeilStage_rightmost depth1 c rx ry
        (roomWallsStage depth1 c rooms rx ry g) hc1 i hi
      exact (wallsMonoT_trans (roomLadderStage_wallsMono depth1 c rooms rx ry pys _)
        (wallsMonoT_trans (roomSwitchStage_wallsMono depth1 c rooms rx ry _)
          (roomDoorStage_wallsMono c rooms rx ry _))) _ _ i hwall

/-- The x room loop, run over the full width, walls the rightmost tile
column over the three rows of room row ry. -/
lemma roomsRowLoop_rightmost (depth0 depth1 c : Nat) (rooms : Gen.Rooms) (ry : Nat)
    (width : Nat) (hwd : 1 ≤ width) (g g2 : TGrid)
    (h : roomsRowLoop depth0 depth1 c rooms ry width g = some g2)
    (hall : ∀ w, w < depth1 →
      (wallColorsAt rooms (width - 1) ry w).2 = true ∧
        (wallColorsAt rooms (width - 1) ry w).1 = 0)
    (hc1 : 1 ≤ c) (hdc : depth1 - 1 ≤ c) (j : Nat) (hj : j < 3) (i : Nat)
    (hi : i < depth1) :
    (g2 (width * c) (ry * 3 + j + 1)).walls i = true := by
  rcases width with _ | wm
  · omega
  · rw [roomsRowLoop] at h
    rcases hmid : roomsRowLoop depth0 depth1 c rooms ry wm g with _ | gmid <;>
      rw [hmid] at h
    · cases h
    · rw [Nat.succ_mul]
      exact setTilesForRoom_rightmost depth0 depth1 c rooms wm ry gmid g2 h hall hc1 hdc
        j hj i hi

/-- The y room loop walls the rightmost tile column on every compiled room
row. -/
lemma roomsRowsLoop_rightmost (depth0 depth1 c : Nat) (rooms : Gen.Rooms) (width : Nat)
    (hwd : 1 ≤ width)
    (hall : ∀ ry w, w < depth1 →
      (wallColorsAt rooms (width - 1) ry w).2 = true ∧
        (wallColorsAt rooms (width - 1) ry w).1 = 0)
    (hc1 : 1 ≤ c) (hdc : depth1 - 1 ≤ c) :
    ∀ (n : Nat) (g g2 : TGrid),
      roomsRowsLoop depth0 depth1 c rooms width n g = some g2 →
      ∀ ry, ry < n → ∀ j, j < 3 → ∀ i, i < depth1 →
      (g2 (width * c) (ry * 3 + j + 1)).walls i = true := by
  intro n
  induction n with
  | zero =>
    intro g g2 h ry hry j hj i hi
    omega
  | succ n ih =>
    intro g g2 h ry hry j hj i hi
    rw [roomsRowsLoop] at h
    rcases hmid : roomsRowsLoop depth0 depth1 c rooms width n g with _ | gmid <;>
      rw [hmid] at h
    · cases h
    · by_cases hryn : ry = n
      · subst hryn
        exact roomsRowLoop_rightmost depth0 depth1 c rooms ry width hwd gmid g2 h
          (hall ry) hc1 hdc j hj i hi
      · exact roomsRowLoop_wallsMono depth0 depth1 c rooms n width gmid g2 h _ _ i
          (ih g gmid hmid ry (by omega) j hj i hi)

/-- A room whose rightmost x-passages are walls on both read z-layers
reads as a non-colored wall in wallColorsAt. -/
lemma wallColorsAt_wall_inputs (rooms : Gen.Rooms) (rx ry w : Nat)
    (h0 : (rooms ⟨rx, ry, 0, w⟩).passageX = Gen.Passage.wall)
    (h1 : (rooms ⟨rx, ry, 1, w⟩).passageX = Gen.Passage.wall) :
    (wallColorsAt rooms rx ry w).2 = true ∧ (wallColorsAt rooms rx ry w).1 = 0 := by
  unfold wallColorsAt Gen.roomAt
  dsimp only
  constructor
  · exact decide_eq_true (Or.inl h0)
  · rw [if_neg (fun hcc => hcc.1 h0), if_neg (fun hcc => hcc.2 h1)]

end G3

namespace G3

/-- Rooms value in which every passage is a wall and no room is visited
(the zero value of the rooms slices). -/
def allWallRooms : Gen.Rooms := fun _ => Gen.Room.default

/-- C7: every compiled tile grid has its goal flag set at exactly one
tile: column gridWidth - roomXGridCount - 1 of row gridHeight - 1. -/
theorem goal_tile_unique (width height depth0 depth1 : Nat) (rooms : Gen.Rooms)
    (F : FieldData) (c : Nat) (hc : roomXGridCount depth1 = some c)
    (h : setTiles width height depth0 depth1 rooms = some F) (x y : Nat) :
    (F.at0 x y).goal = true ↔ (x = F.widthT - c - 1 ∧ y = F.heightT - 1) := by
  unfold setTiles at h
  rw [hc] at h
  dsimp only at h
  rcases hloop : roomsRowsLoop depth0 depth1 c rooms width height
      (baseGrid width height depth1 c) with _ | g5 <;> rw [hloop] at h
  · cases h
  · rw [Option.some.injEq] at h
    subst h
    have hge := roomsRowsLoop_goalEq depth0 depth1 c rooms width height _ _ hloop
    dsimp only
    rw [hge x y]
    exact baseGrid_goal width height depth1 c x y

/-- Witness for the C7 theorem on a concrete compile of a 1x1 all-wall
room graph with depth1 = 1 (c = 6): the goal iff at tile (0, 4). -/
theorem goal_tile_unique_witness :
    (setTiles 1 1 2 1 allWallRooms).elim False
      (fun F => (F.at0 0 4).goal = true ↔ (0 = F.widthT - 6 - 1 ∧ 4 = F.heightT - 1)) := by
  rcases hsome : setTiles 1 1 2 1 allWallRooms with _ | F
  · have hs : (setTiles 1 1 2 1 allWallRooms).isSome = true := by rfl
    rw [hsome] at hs
    cases hs
  · exact goal_tile_unique 1 1 2 1 allWallRooms F 6 rfl hsome 0 4

/-- C8 counterexample: the claim asserts that the whole outer perimeter of
the compiled grid is wall; compiling the 1x1 all-wall room graph gives a
7x5 grid whose top-row tile (1, 4) has no wall for w-layer 0. -/
theorem top_row_tile_not_wall_cex :
    (setTiles 1 1 2 1 allWallRooms).map
        (fun F => (F.widthT, F.heightT, (F.at0 1 (F.heightT - 1)).walls 0)) =
      some (7, 5, false) := by
  rfl

/-- C8 (amended): in every compiled tile grid, every tile of the bottom
row (tile row 0), every tile of the leftmost column, and the far corner
tile (gridWidth - 1, gridHeight - 1) have the wall flag set for every
w-layer; the whole rightmost column (gridWidth - 1) is likewise walled for
every w-layer whenever every room of the rightmost room column carries a
wall x-passage — an invariant of every generator output (generateRooms
never writes passageX at room column width - 1, lemma
Gen.generateRooms_xwall).  Only the top-row part of the original claim
fails: a top-row tile away from the corners need not be a wall. -/
theorem perimeter_walls (width height depth0 depth1 : Nat)
    (rooms : Gen.Rooms) (F : FieldData) (c : Nat) (hc : roomXGridCount depth1 = some c)
    (hrw : ∀ p : Gen.Pos4, p.x = width - 1 →
      (rooms p).passageX = Gen.Passage.wall)
    (h : setTiles width height depth0 depth1 rooms = some F) (i : Nat) (hi : i < depth1) :
    (∀ x, x < F.widthT → (F.at0 x 0).walls i = true) ∧
      (∀ y, y < F.heightT → (F.at0 0 y).walls i = true) ∧
      (∀ y, y < F.heightT → (F.at0 (F.widthT - 1) y).walls i = true) ∧
      (F.at0 (F.widthT - 1) (F.heightT - 1)).walls i = true := by
  have hcf : 1 ≤ c ∧ depth1 - 1 ≤ c := by
    unfold roomXGridCount at hc
    split_ifs at hc with h1 h2
    · rw [Option.some.injEq] at hc
      omega
    · rw [Option.some.injEq] at hc
      omega
  obtain ⟨hc1, hdc⟩ := hcf
  unfold setTiles at h
  rw [hc] at h
  dsimp only at h
  rcases hloop : roomsRowsLoop depth0 depth1 c rooms width height
      (baseGrid width height depth1 c) with _ | g5 <;> rw [hloop] at h
  · cases h
  · rw [Option.some.injEq] at h
    subst h
    have hmono := roomsRowsLoop_wallsMono depth0 depth1 c rooms width height _ _ hloop
    dsimp only
    have hx0 : ∀ x, x < width * c + 1 → (g5 x 0).walls i = true := fun x hx =>
      hmono x 0 i (baseGrid_walls_of_perimeter width height depth1 c x 0 i
        (perimeterGrid_row0 width height depth1 c x i hx hi))
    have hy0 : ∀ y, y < height * 3 + 2 → (g5 0 y).walls i = true := fun y hy =>
      hmono 0 y i (baseGrid_walls_of_perimeter width height depth1 c 0 y i
        (perimeterGrid_col0 width height depth1 c y i hy hi))
    have hcor : (g5 (width * c + 1 - 1) (height * 3 + 2 - 1)).walls i = true :=
      hmono _ _ i (baseGrid_walls_of_perimeter width height depth1 c _ _ i
        (perimeterGrid_corner width height depth1 c i hi))
    refine ⟨hx0, hy0, ?_, hcor⟩
    intro y hy
    by_cases hwd : 1 ≤ width
    · have hallall : ∀ ry w, w < depth1 →
          (wallColorsAt rooms (width - 1) ry w).2 = true ∧
            (wallColorsAt rooms (width - 1) ry w).1 = 0 := fun ry w _ =>
        wallColorsAt_wall_inputs rooms (width - 1) ry w (hrw _ rfl) (hrw _ rfl)
      by_cases hyb : y = 0
      · subst hyb
        exact hx0 _ (by omega)
      · by_cases hyt : y = height * 3 + 1
        · subst hyt
          have hye : height * 3 + 1 = height * 3 + 2 - 1 := by omega
          rw [hye]
          exact hcor
        · obtain ⟨ry, jj, hry, hj3, hyd⟩ :
              ∃ ry jj, ry < height ∧ jj < 3 ∧ y = ry * 3 + jj + 1 :=
            ⟨(y - 1) / 3, (y - 1) % 3, by omega, by omega, by omega⟩
          subst hyd
          have hxc : width * c + 1 - 1 = width * c := by omega
          rw [hxc]
          exact roomsRowsLoop_rightmost depth0 depth1 c rooms width hwd hallall hc1 hdc
            height _ _ hloop ry hry jj hj3 i hi
    · have hw0 : width = 0 := by omega
      subst hw0
      have hxc : 0 * c + 1 - 1 = 0 := by omega
      rw [hxc]
      exact hy0 y hy

/-- Witness for the amended C8 theorem on the concrete 7x5 compile of the
1x1 all-wall room graph: the rightmost-column tile at interior row 2
carries a wall (besides the bottom row, the left column and the far
corner). -/
theorem perimeter_walls_witness :
    (setTiles 1 1 2 1 allWallRooms).elim False
      (fun F => (F.at0 (F.widthT - 1) 2).walls 0 = true) := by
  rcases hsome : setTiles 1 1 2 1 allWallRooms with _ | F
  · have hs : (setTiles 1 1 2 1 allWallRooms).isSome = true := by rfl
    rw [hsome] at hs
    cases hs
  · have hh : F.heightT = 5 := by
      have h5 : (setTiles 1 1 2 1 allWallRooms).map (fun F2 => F2.heightT) = some 5 := rfl
      rw [hsome] at h5
      exact Option.some.inj h5
    exact (perimeter_walls 1 1 2 1 allWallRooms F 6 rfl (fun _ _ => rfl) hsome 0
      (by decide)).2.2.1 2 (by omega)

end G3

namespace Gen

/-- Size parameters of the room-graph generator. -/
structure GenCfg where
  width : Nat
  height : Nat
  depth0 : Nat
  depth1 : Nat

/-- The global random source rand.IntN modelled over a stream of
pre-drawn numbers: consume the head modulo n (0 when exhausted). -/
def randIntN (n : Nat) : List Nat → Nat × List Nat
  | [] => (0, [])
  | h :: t => (h % n, t)

/-- Goal predicate handed to tryAddPathWithOneWay (the Go closures). -/
def GoalPred : Type := Pos4 → Rooms → Nat → Bool

/-- The start room. -/
def startPos : Pos4 := ⟨0, 0, 0, 0⟩

/-- The goal room (width-1, height-1, depth0-1, depth1-1). -/
def goalPos (cfg : GenCfg) : Pos4 :=
  ⟨cfg.width - 1, cfg.height - 1, cfg.depth0 - 1, cfg.depth1 - 1⟩

/-- The main-path goal predicate: exact goal coordinates. -/
def mainGoalPred (cfg : GenCfg) : GoalPred := fun p _ _ => p == goalPos cfg

/-- The branch goal predicate built in generateRooms: a branch may only
terminate at a room different from its origin, already visited, and whose
pathCount is small enough that the branch is not a shortcut. -/
def branchGoalPred (start : Pos4) (startCount : Nat) : GoalPred := fun p rooms _ =>
  if p == start then false
  else if (rooms p).pathCount == 0 then false
  -- A branch must not be a shortcut.
  else if startCount ≤ (rooms p).pathCount * 5 / 4 then false
  else true

/-- Go abs(a - b) over int coordinates. -/
def absDiff (a b : Nat) : Nat := if a < b then b - a else a - b

/-- One iteration result of the 100-try sampling loop. -/
inductive SampleDecision where
  | retry
  | accept (next : Pos4) (oneWay : Bool) (goalReached : Bool)

/-- The per-z scan of a y-direction candidate: detects a conflicting
one-way passage (failure = continue retry) and computes the allWall /
allWallOrOneWay flags over the sibling z layers.  When fwd is true the
inspected passage is rooms[w][z][y][x] with the departure side
coordinates, otherwise the destination side. -/
def ywallScanAux (rooms : Rooms) (x y w : Nat) (fwd : Bool) : Nat → Option (Bool × Bool)
  | 0 => some (true, true)
  | n + 1 =>
    match ywallScanAux rooms x y w fwd n with
    | none => none
    | some (aw, awo) =>
      let p := (roomAt rooms w n y x).passageY
      if fwd then
        if p = Passage.oneWayBackward then none
        else some (aw && p == Passage.wall,
          awo && (p == Passage.wall || p == Passage.oneWayForward))
      else
        if p = Passage.oneWayForward then none
        else some (aw && p == Passage.wall,
          awo && (p == Passage.wall || p == Passage.oneWayBackward))

/-- The y-candidate scan dispatched on the move direction. -/
def ywallScan (cfg : GenCfg) (rooms : Rooms) (cur next : Pos4) : Option (Bool × Bool) :=
  if cur.y < next.y then ywallScanAux rooms cur.x cur.y cur.w true cfg.depth0
  else ywallScanAux rooms next.x next.y cur.w false cfg.depth0

/-- Shared tail of the sampling loop: accept an unvisited candidate,
accept a visited candidate that satisfies the goal predicate at count + 1,
otherwise retry. -/
def visitTail (P : GoalPred) (rooms : Rooms) (next : Pos4) (count : Nat)
    (oneWay visited : Bool) (rng : List Nat) : SampleDecision × List Nat :=
  if !visited then (.accept next oneWay false, rng)
  else if P next rooms (count + 1) then (.accept next oneWay true, rng)
  else (.retry, rng)

/-- The visited / one-way / goal analysis of one sampled candidate,
dispatched like the Go switch on which coordinate changed. -/
def decideCandidate (cfg : GenCfg) (P : GoalPred) (rooms : Rooms) (cur next : Pos4)
    (count : Nat) (rng : List Nat) : SampleDecision × List Nat :=
  if cur.z ≠ next.z then
    let visited := (List.range cfg.depth0).any fun zz =>
      zz != cur.z && ((rooms next).pathCount != 0)
    visitTail P rooms next count false visited rng
  else if cur.w ≠ next.w then
    let visited := (List.range cfg.depth1).any fun ww =>
      ww != cur.w && ((rooms next).pathCount != 0)
    visitTail P rooms next count false visited rng
  else if cur.y ≠ next.y then
    match ywallScan cfg rooms cur next with
    | none => (.retry, rng)
    | some (allWall, allWallOrOneWay) =>
      let owr : Bool × List Nat :=
        if allWall then
          let vr := randIntN 5 rng
          (vr.1 == 0, vr.2)
        else if allWallOrOneWay then (true, rng)
        else (false, rng)
      if allWallOrOneWay && P next rooms (count + 1) then
        -- A branch must have a one-way passage.  Just before the goal,
        -- the passage should be one-way so that branches are created more
        -- easily.
        (.accept next true true, owr.2)
      else
        visitTail P rooms next count owr.1 ((rooms next).pathCount != 0) owr.2
  else
    visitTail P rooms next count false ((rooms next).pathCount != 0) rng

/-- The 100-try candidate sampling loop of tryAddPathWithOneWay:
draw a direction, reject out-of-bounds candidates, and analyse the rest. -/
def sampleMove (cfg : GenCfg) (P : GoalPred) (rooms : Rooms) (cur : Pos4) (count : Nat) :
    Nat → List Nat → Option (Pos4 × Bool × Bool) × List Nat
  | 0, rng => (none, rng)
  | tries + 1, rng =>
    let dr := randIntN (12 + (cfg.depth0 - 1) + (cfg.depth1 - 1)) rng
    let cand : Option Pos4 :=
      if dr.1 ≤ 2 then
        if cur.x ≤ 0 then none else some { cur with x := cur.x - 1 }
      else if dr.1 ≤ 5 then
        if cur.x ≥ cfg.width - 1 then none else some { cur with x := cur.x + 1 }
      else if dr.1 ≤ 8 then
        if cur.y ≤ 0 then none else some { cur with y := cur.y - 1 }
      else if dr.1 ≤ 11 then
        if cur.y ≥ cfg.height - 1 then none else some { cur with y := cur.y + 1 }
      else if dr.1 = 12 then some { cur with z := (cur.z + 1) % cfg.depth0 }
      else if dr.1 = 13 then some { cur with w := (cur.w + 1) % cfg.depth1 }
      else some cur
    match cand with
    | none => sampleMove cfg P rooms cur count tries dr.2
    | some next =>
      match decideCandidate cfg P rooms cur next count dr.2 with
      | (.retry, rng2) => sampleMove cfg P rooms cur count tries rng2
      | (.accept n ow gr, rng2) => (some (n, ow, gr), rng2)

/-- The y-direction passage write for an upward step (y < nextY): set the
passage at the (nextZ, nextW) layer of the departure row and check the
sibling z layers for impossible states (Go panics, modelled as failure).
The loop runs over z in range depth0. -/
def writeYFwd (rooms : Rooms) (x y nextZ w nextW : Nat) (oneWay : Bool) :
    Nat → Option Rooms
  | 0 => some rooms
  | n + 1 =>
    match writeYFwd rooms x y nextZ w nextW oneWay n with
    | none => none
    | some r =>
      if n = nextZ ∧ w = nextW then
        some (setRoom r ⟨x, y, n, w⟩ fun rm =>
          { rm with passageY := if oneWay then .oneWayForward else .passable })
      else if oneWay then
        if (r ⟨x, y, n, w⟩).passageY = Passage.oneWayBackward then none
        else if (r ⟨x, y, n, w⟩).passageY = Passage.passable then none
        else some r
      else
        if (r ⟨x, y, n, w⟩).passageY = Passage.oneWayForward then none
        else if (r ⟨x, y, n, w⟩).passageY = Passage.oneWayBackward then none
        else some r

/-- The y-direction passage write for a downward step (y > nextY),
writing at the destination row nextY. -/
def writeYBwd (rooms : Rooms) (x nextY nextZ w nextW : Nat) (oneWay : Bool) :
    Nat → Option Rooms
  | 0 => some rooms
  | n + 1 =>
    match writeYBwd rooms x nextY nextZ w nextW oneWay n with
    | none => none
    | some r =>
      if n = nextZ ∧ w = nextW then
        some (setRoom r ⟨x, nextY, n, w⟩ fun rm =>
          { rm with passageY := if oneWay then .oneWayBackward else .passable })
      else if oneWay then
        if (r ⟨x, nextY, n, w⟩).passageY = Passage.oneWayForward then none
        else if (r ⟨x, nextY, n, w⟩).passageY = Passage.passable then none
        else some r
      else
        if (r ⟨x, nextY, n, w⟩).passageY = Passage.oneWayForward then none
        else if (r ⟨x, nextY, n, w⟩).passageY = Passage.oneWayBackward then none
        else some r

/-- Go `for z := range depth0 - 1 { rooms[w][z][y][x].passageZ = passable }`. -/
def setZColumn (rooms : Rooms) (x y w : Nat) : Nat → Rooms
  | 0 => rooms
  | n + 1 =>
    setRoom (setZColumn rooms x y w n) ⟨x, y, n, w⟩ fun rm =>
      { rm with passageZ := .passable }

/-- Go `for w := range depth1 - 1 { rooms[w][z][y][x].passageW = passable }`. -/
def setWColumn (rooms : Rooms) (x y z : Nat) : Nat → Rooms
  | 0 => rooms
  | n + 1 =>
    setRoom (setWColumn rooms x y z n) ⟨x, y, z, n⟩ fun rm =>
      { rm with passageW := .passable }

/-- Go `for z := range depth0 { rooms[nextW][z][nextY][nextX].pathCount =
count + abs(origZ-z) }`. -/
def stampZColumn (rooms : Rooms) (x y w origZ count : Nat) : Nat → Rooms
  | 0 => rooms
  | n + 1 =>
    setRoom (stampZColumn rooms x y w origZ count n) ⟨x, y, n, w⟩ fun rm =>
      { rm with pathCount := count + absDiff origZ n }

/-- Go `for w := range depth1 { rooms[w][nextZ][nextY][nextX].pathCount =
count + abs(origW-w) }`. -/
def stampWColumn (rooms : Rooms) (x y z origW count : Nat) : Nat → Rooms
  | 0 => rooms
  | n + 1 =>
    setRoom (stampWColumn rooms x y z origW count n) ⟨x, y, z, n⟩ fun rm =>
      { rm with pathCount := count + absDiff origW n }

/-- The passage write performed for an accepted step, dispatched like the
Go switch (x forward, x backward, y forward, y backward, z layer change,
w layer change). -/
def applyPassage (cfg : GenCfg) (rooms : Rooms) (cur next : Pos4) (oneWay : Bool) :
    Option Rooms :=
  if cur.x < next.x then
    some (setRoom rooms cur fun rm => { rm with passageX := .passable })
  else if next.x < cur.x then
    some (setRoom rooms ⟨next.x, cur.y, cur.z, cur.w⟩ fun rm =>
      { rm with passageX := .passable })
  else if cur.y < next.y then
    writeYFwd rooms cur.x cur.y next.z cur.w next.w oneWay cfg.depth0
  else if next.y < cur.y then
    writeYBwd rooms cur.x next.y next.z cur.w next.w oneWay cfg.depth0
  else if cur.z ≠ next.z then
    some (setZColumn rooms cur.x cur.y cur.w (cfg.depth0 - 1))
  else if cur.w ≠ next.w then
    some (setWColumn rooms cur.x cur.y cur.z (cfg.depth1 - 1))
  else some rooms

/-- The pathCount stamping performed for an accepted step. -/
def applyStamp (cfg : GenCfg) (rooms : Rooms) (cur next : Pos4) (count : Nat) : Rooms :=
  if cur.z ≠ next.z then
    stampZColumn rooms next.x next.y next.w cur.z count cfg.depth0
  else if cur.w ≠ next.w then
    stampWColumn rooms next.x next.y next.z cur.w count cfg.depth1
  else
    setRoom rooms next fun rm => { rm with pathCount := count + 1 }

/-- The main loop of tryAddPathWithOneWay, with explicit fuel for the
unbounded Go loop.  Returns the new rooms (or failure) together with the
remaining random stream. -/
def tryAddPathLoop (cfg : GenCfg) (P : GoalPred) :
    Nat → Rooms → Pos4 → Nat → Bool → List Nat → Option Rooms × List Nat
  | 0, _, _, _, _, rng => (none, rng)
  | fuel + 1, rooms, cur, count, oneWayExists, rng =>
    if P cur rooms count then
      (if oneWayExists then some rooms else none, rng)
    else
      match sampleMove cfg P rooms cur count 100 rng with
      | (none, rng2) => (none, rng2)
      | (some (next, oneWay, goalReached), rng2) =>
        match applyPassage cfg rooms cur next oneWay with
        | none => (none, rng2)
        | some r1 =>
          let r2 := applyStamp cfg r1 cur next count
          let owe := oneWayExists || oneWay
          if goalReached then (if owe then some r2 else none, rng2)
          else tryAddPathLoop cfg P fuel r2 next (count + 1) owe rng2

/-- tryAddPathWithOneWay: clone-and-extend a path from (x,y,z,w) until the
goal predicate holds; fail if no one-way passage was created. -/
def tryAddPathWithOneWay (cfg : GenCfg) (P : GoalPred) (fuel : Nat) (rooms : Rooms)
    (cur : Pos4) (rng : List Nat) : Option Rooms × List Nat :=
  tryAddPathLoop cfg P fuel rooms cur ((rooms cur).pathCount) false rng

/-- All room coordinates in the iteration order of areEnoughRoomsVisited. -/
def allCoords (cfg : GenCfg) : List Pos4 :=
  (List.range cfg.depth1).flatMap fun w =>
    (List.range cfg.depth0).flatMap fun z =>
      (List.range cfg.height).flatMap fun y =>
        (List.range cfg.width).map fun x => ⟨x, y, z, w⟩

/-- Number of visited rooms. -/
def countVisited (cfg : GenCfg) (rooms : Rooms) : Nat :=
  ((allCoords cfg).filter fun p => (rooms p).pathCount != 0).length

/-- areEnoughRoomsVisited: at least (total * 8 / 10) rooms are visited
(the Go loop counts with an early exit at the threshold, which is
extensionally this comparison). -/
def areEnoughRoomsVisited (cfg : GenCfg) (rooms : Rooms) : Bool :=
  countVisited cfg rooms ≥ cfg.width * cfg.height * cfg.depth0 * cfg.depth1 * 8 / 10

/-- The random search for a visited branch origin, with fuel for the
unbounded Go loop. -/
def pickStart (cfg : GenCfg) (rooms : Rooms) : Nat → List Nat → Option (Pos4 × List Nat)
  | 0, _ => none
  | fuel + 1, rng =>
    let r1 := randIntN cfg.width rng
    let r2 := randIntN cfg.height r1.2
    let r3 := randIntN cfg.depth0 r2.2
    let r4 := randIntN cfg.depth1 r3.2
    let p : Pos4 := ⟨r1.1, r2.1, r3.1, r4.1⟩
    if (rooms p).pathCount != 0 then some (p, r4.2)
    else pickStart cfg rooms fuel r4.2

/-- The branch-insertion loop of generateRooms: until enough rooms are
visited, pick a visited origin and try to add a branch; give up after
1000 consecutive failed branch attempts. -/
def branchLoop (cfg : GenCfg) (tfuel pfuel : Nat) :
    Nat → Rooms → Nat → List Nat → Option Rooms
  | 0, _, _, _ => none
  | bfuel + 1, rooms, failCount, rng =>
    if areEnoughRoomsVisited cfg rooms then some rooms
    else
      match pickStart cfg rooms pfuel rng with
      | none => none
      | some (start, rng1) =>
        let startCount := (rooms start).pathCount
        match tryAddPathWithOneWay cfg (branchGoalPred start startCount) tfuel rooms start
            rng1 with
        | (none, rng2) =>
          if failCount + 1 > 1000 then none
          else branchLoop cfg tfuel pfuel bfuel rooms (failCount + 1) rng2
        | (some r2, rng2) => branchLoop cfg tfuel pfuel bfuel r2 0 rng2

/-- generateRooms of the final fielddata version: grow the main path from
the start to the goal, force the passage above the goal open, then insert
branches until enough rooms are visited. -/
def generateRooms (cfg : GenCfg) (tfuel pfuel bfuel : Nat) (rng : List Nat) :
    Option Rooms :=
  let rooms1 := setRoom (fun _ => Room.default) startPos fun rm => { rm with pathCount := 1 }
  match tryAddPathWithOneWay cfg (mainGoalPred cfg) tfuel rooms1 startPos rng with
  | (none, _) => none
  | (some r, rng1) =>
    let r2 := setRoom r (goalPos cfg) fun rm => { rm with passageY := .passable }
    branchLoop cfg tfuel pfuel bfuel r2 0 rng1

end Gen

namespace Gen

/-- C2: the branch goal predicate accepts a terminating room exactly when
it is distinct from the branch origin, already visited, and its recorded
pathCount is more than a 5/4 ratio below the origin's pathCount (with the
integer arithmetic of the source, acceptance is exactly
5 * pathCount < 4 * startCount, i.e. the origin's count is strictly
greater than 5/4 times the terminating room's count). -/
theorem branch_pred_no_shortcut (start : Pos4) (startCount : Nat) (p : Pos4)
    (rooms : Rooms) (count : Nat) :
    branchGoalPred start startCount p rooms count = true ↔
      (p ≠ start ∧ (rooms p).pathCount ≠ 0 ∧
        5 * (rooms p).pathCount < 4 * startCount) := by
  have hdiv : (rooms p).pathCount * 5 / 4 < startCount ↔
      (rooms p).pathCount * 5 < startCount * 4 :=
    Nat.div_lt_iff_lt_mul (by norm_num)
  unfold branchGoalPred
  split_ifs with h1 h2 h3
  · simp only [Bool.false_eq_true, false_iff]
    intro hc
    exact hc.1 (by simpa using h1)
  · simp only [Bool.false_eq_true, false_iff]
    intro hc
    exact hc.2.1 (by simpa using h2)
  · simp only [Bool.false_eq_true, false_iff]
    intro hc
    have h4 := hc.2.2
    have h5 : ¬ ((rooms p).pathCount * 5 / 4 < startCount) := by omega
    rw [hdiv] at h5
    omega
  · simp only [true_iff]
    refine ⟨by simpa using h1, by simpa using h2, ?_⟩
    have h5 : (rooms p).pathCount * 5 / 4 < startCount := by omega
    rw [hdiv] at h5
    omega

end Gen

namespace Gen

/-- In-range room coordinates. -/
def inBounds (cfg : GenCfg) (p : Pos4) : Prop :=
  p.x < cfg.width ∧ p.y < cfg.height ∧ p.z < cfg.depth0 ∧ p.w < cfg.depth1

instance (cfg : GenCfg) (p : Pos4) : Decidable (inBounds cfg p) := by
  unfold inBounds; infer_instance

/-- Undirected passage-respecting adjacency: two in-range rooms one step
apart whose connecting passage is not a wall (one-way passages count in
both directions). -/
def adj (cfg : GenCfg) (r : Rooms) (a b : Pos4) : Prop :=
  inBounds cfg a ∧ inBounds cfg b ∧
    ((b = { a with x := a.x + 1 } ∧ (r a).passageX ≠ .wall) ∨
     (a = { b with x := b.x + 1 } ∧ (r b).passageX ≠ .wall) ∨
     (b = { a with y := a.y + 1 } ∧ (r a).passageY ≠ .wall) ∨
     (a = { b with y := b.y + 1 } ∧ (r b).passageY ≠ .wall) ∨
     (b = { a with z := a.z + 1 } ∧ (r a).passageZ ≠ .wall) ∨
     (a = { b with z := b.z + 1 } ∧ (r b).passageZ ≠ .wall) ∨
     (b = { a with w := a.w + 1 } ∧ (r a).passageW ≠ .wall) ∨
     (a = { b with w := b.w + 1 } ∧ (r b).passageW ≠ .wall))

/-- Undirected passage-respecting reachability. -/
def conn (cfg : GenCfg) (r : Rooms) : Pos4 → Pos4 → Prop :=
  Relation.ReflTransGen (adj cfg r)

/-- The generation invariant: every visited room is in range and connected
to the start room through non-wall passages. -/
def Inv (cfg : GenCfg) (r : Rooms) : Prop :=
  ∀ p, (r p).pathCount ≠ 0 → inBounds cfg p ∧ conn cfg r startPos p

/-- One room grows: open passages stay open, visited stays visited. -/
def roomLe (a b : Room) : Prop :=
  (a.passageX ≠ .wall → b.passageX ≠ .wall) ∧
    (a.passageY ≠ .wall → b.passageY ≠ .wall) ∧
    (a.passageZ ≠ .wall → b.passageZ ≠ .wall) ∧
    (a.passageW ≠ .wall → b.passageW ≠ .wall) ∧
    (a.pathCount ≠ 0 → b.pathCount ≠ 0)

/-- Pointwise room growth. -/
def roomsLe (r r2 : Rooms) : Prop := ∀ p, roomLe (r p) (r2 p)

lemma roomLe_refl (a : Room) : roomLe a a :=
  ⟨fun h => h, fun h => h, fun h => h, fun h => h, fun h => h⟩

lemma roomLe_trans {a b c : Room} (h1 : roomLe a b) (h2 : roomLe b c) : roomLe a c :=
  ⟨fun h => h2.1 (h1.1 h), fun h => h2.2.1 (h1.2.1 h), fun h => h2.2.2.1 (h1.2.2.1 h),
   fun h => h2.2.2.2.1 (h1.2.2.2.1 h), fun h => h2.2.2.2.2 (h1.2.2.2.2 h)⟩

lemma roomsLe_refl (r : Rooms) : roomsLe r r := fun p => roomLe_refl (r p)

lemma roomsLe_trans {r1 r2 r3 : Rooms} (h1 : roomsLe r1 r2) (h2 : roomsLe r2 r3) :
    roomsLe r1 r3 := fun p => roomLe_trans (h1 p) (h2 p)

lemma adj_mono {cfg : GenCfg} {r r2 : Rooms} (hle : roomsLe r r2) {a b : Pos4}
    (h : adj cfg r a b) : adj cfg r2 a b := by
  obtain ⟨ha, hb, hcase⟩ := h
  refine ⟨ha, hb, ?_⟩
  rcases hcase with ⟨he, hp⟩ | ⟨he, hp⟩ | ⟨he, hp⟩ | ⟨he, hp⟩ |
    ⟨he, hp⟩ | ⟨he, hp⟩ | ⟨he, hp⟩ | ⟨he, hp⟩
  · exact Or.inl ⟨he, (hle a).1 hp⟩
  · exact Or.inr (Or.inl ⟨he, (hle b).1 hp⟩)
  · exact Or.inr (Or.inr (Or.inl ⟨he, (hle a).2.1 hp⟩))
  · exact Or.inr (Or.inr (Or.inr (Or.inl ⟨he, (hle b).2.1 hp⟩)))
  · exact Or.inr (Or.inr (Or.inr (Or.inr (Or.inl ⟨he, (hle a).2.2.1 hp⟩))))
  · exact Or.inr (Or.inr (Or.inr (Or.inr (Or.inr (Or.inl ⟨he, (hle b).2.2.1 hp⟩)))))
  · exact Or.inr (Or.inr (Or.inr (Or.inr (Or.inr (Or.inr (Or.inl ⟨he, (hle a).2.2.2.1 hp⟩))))))
  · exact Or.inr (Or.inr (Or.inr (Or.inr (Or.inr (Or.inr (Or.inr ⟨he, (hle b).2.2.2.1 hp⟩))))))

lemma conn_mono {cfg : GenCfg} {r r2 : Rooms} (hle : roomsLe r r2) {a b : Pos4}
    (h : conn cfg r a b) : conn cfg r2 a b :=
  Relation.ReflTransGen.mono (fun _ _ hab => adj_mono hle hab) h

lemma adj_symm {cfg : GenCfg} {r : Rooms} {a b : Pos4} (h : adj cfg r a b) :
    adj cfg r b a := by
  obtain ⟨ha, hb, hcase⟩ := h
  refine ⟨hb, ha, ?_⟩
  tauto

lemma conn_symm {cfg : GenCfg} {r : Rooms} {a b : Pos4} (h : conn cfg r a b) :
    conn cfg r b a := by
  induction h with
  | refl => exact Relation.ReflTransGen.refl
  | tail _ hab ih =>
    exact Relation.ReflTransGen.trans (Relation.ReflTransGen.single (adj_symm hab)) ih

/-- Invariant transport along growth that does not create visited rooms. -/
lemma Inv_mono {cfg : GenCfg} {r r2 : Rooms} (hinv : Inv cfg r) (hle : roomsLe r r2)
    (hvis : ∀ p, (r2 p).pathCount ≠ 0 → (r p).pathCount ≠ 0) : Inv cfg r2 := by
  intro p hp
  obtain ⟨hb, hc⟩ := hinv p (hvis p hp)
  exact ⟨hb, conn_mono hle hc⟩

end Gen

namespace Gen

lemma setRoom_apply (r : Rooms) (p : Pos4) (fn : Room → Room) (q : Pos4) :
    setRoom r p fn q = if q = p then fn (r p) else r q := rfl

lemma setZColumn_apply (r : Rooms) (x y w : Nat) :
    ∀ (n : Nat) (q : Pos4),
      setZColumn r x y w n q =
        if q.x = x ∧ q.y = y ∧ q.w = w ∧ q.z < n then
          { r q with passageZ := .passable }
        else r q := by
  intro n
  induction n with
  | zero =>
    intro q
    rw [setZColumn, if_neg (fun h => absurd h.2.2.2 (Nat.not_lt_zero q.z))]
  | succ n ih =>
    intro q
    rw [setZColumn, setRoom_apply]
    split
    · next hq =>
      subst hq
      rw [ih ⟨x, y, n, w⟩]
      rw [if_neg (fun h => absurd h.2.2.2 (Nat.lt_irrefl n))]
      rw [if_pos ⟨rfl, rfl, rfl, Nat.lt_succ_self n⟩]
    · next hq =>
      rw [ih q]
      by_cases hcol : q.x = x ∧ q.y = y ∧ q.w = w
      · by_cases hzn : q.z < n
        · rw [if_pos ⟨hcol.1, hcol.2.1, hcol.2.2, hzn⟩,
            if_pos ⟨hcol.1, hcol.2.1, hcol.2.2, by omega⟩]
        · have hzn1 : ¬ q.z < n + 1 := by
            intro hlt
            have hz : q.z = n := by omega
            exact hq (by cases q; simp_all)
          rw [if_neg (fun h => hzn h.2.2.2), if_neg (fun h => hzn1 h.2.2.2)]
      · rw [if_neg (fun h => hcol ⟨h.1, h.2.1, h.2.2.1⟩),
          if_neg (fun h => hcol ⟨h.1, h.2.1, h.2.2.1⟩)]

lemma setWColumn_apply (r : Rooms) (x y z : Nat) :
    ∀ (n : Nat) (q : Pos4),
      setWColumn r x y z n q =
        if q.x = x ∧ q.y = y ∧ q.z = z ∧ q.w < n then
          { r q with passageW := .passable }
        else r q := by
  intro n
  induction n with
  | zero =>
    intro q
    rw [setWColumn, if_neg (fun h => absurd h.2.2.2 (Nat.not_lt_zero q.w))]
  | succ n ih =>
    intro q
    rw [setWColumn, setRoom_apply]
    split
    · next hq =>
      subst hq
      rw [ih ⟨x, y, z, n⟩]
      rw [if_neg (fun h => absurd h.2.2.2 (Nat.lt_irrefl n))]
      rw [if_pos ⟨rfl, rfl, rfl, Nat.lt_succ_self n⟩]
    · next hq =>
      rw [ih q]
      by_cases hcol : q.x = x ∧ q.y = y ∧ q.z = z
      · by_cases hwn : q.w < n
        · rw [if_pos ⟨hcol.1, hcol.2.1, hcol.2.2, hwn⟩,
            if_pos ⟨hcol.1, hcol.2.1, hcol.2.2, by omega⟩]
        · have hwn1 : ¬ q.w < n + 1 := by
            intro hlt
            have hz : q.w = n := by omega
            exact hq (by cases q; simp_all)
          rw [if_neg (fun h => hwn h.2.2.2), if_neg (fun h => hwn1 h.2.2.2)]
      · rw [if_neg (fun h => hcol ⟨h.1, h.2.1, h.2.2.1⟩),
          if_neg (fun h => hcol ⟨h.1, h.2.1, h.2.2.1⟩)]

lemma stampZColumn_apply (r : Rooms) (x y w origZ count : Nat) :
    ∀ (n : Nat) (q : Pos4),
      stampZColumn r x y w origZ count n q =
        if q.x = x ∧ q.y = y ∧ q.w = w ∧ q.z < n then
          { r q with pathCount := count + absDiff origZ q.z }
        else r q := by
  intro n
  induction n with
  | zero =>
    intro q
    rw [stampZColumn, if_neg (fun h => absurd h.2.2.2 (Nat.not_lt_zero q.z))]
  | succ n ih =>
    intro q
    rw [stampZColumn, setRoom_apply]
    split
    · next hq =>
      subst hq
      rw [ih ⟨x, y, n, w⟩]
      rw [if_neg (fun h => absurd h.2.2.2 (Nat.lt_irrefl n))]
      rw [if_pos ⟨rfl, rfl, rfl, Nat.lt_succ_self n⟩]
    · next hq =>
      rw [ih q]
      by_cases hcol : q.x = x ∧ q.y = y ∧ q.w = w
      · by_cases hzn : q.z < n
        · rw [if_pos ⟨hcol.1, hcol.2.1, hcol.2.2, hzn⟩,
            if_pos ⟨hcol.1, hcol.2.1, hcol.2.2, by omega⟩]
        · have hzn1 : ¬ q.z < n + 1 := by
            intro hlt
            have hz : q.z = n := by omega
            exact hq (by cases q; simp_all)
          rw [if_neg (fun h => hzn h.2.2.2), if_neg (fun h => hzn1 h.2.2.2)]
      · rw [if_neg (fun h => hcol ⟨h.1, h.2.1, h.2.2.1⟩),
          if_neg (fun h => hcol ⟨h.1, h.2.1, h.2.2.1⟩)]

lemma stampWColumn_apply (r : Rooms) (x y z origW count : Nat) :
    ∀ (n : Nat) (q : Pos4),
      stampWColumn r x y z origW count n q =
        if q.x = x ∧ q.y = y ∧ q.z = z ∧ q.w < n then
          { r q with pathCount := count + absDiff origW q.w }
        else r q := by
  intro n
  induction n with
  | zero =>
    intro q
    rw [stampWColumn, if_neg (fun h => absurd h.2.2.2 (Nat.not_lt_zero q.w))]
  | succ n ih =>
    intro q
    rw [stampWColumn, setRoom_apply]
    split
    · next hq =>
      subst hq
      rw [ih ⟨x, y, z, n⟩]
      rw [if_neg (fun h => absurd h.2.2.2 (Nat.lt_irrefl n))]
      rw [if_pos ⟨rfl, rfl, rfl, Nat.lt_succ_self n⟩]
    · next hq =>
      rw [ih q]
      by_cases hcol : q.x = x ∧ q.y = y ∧ q.z = z
      · by_cases hwn : q.w < n
        · rw [if_pos ⟨hcol.1, hcol.2.1, hcol.2.2, hwn⟩,
            if_pos ⟨hcol.1, hcol.2.1, hcol.2.2, by omega⟩]
        · have hwn1 : ¬ q.w < n + 1 := by
            intro hlt
            have hz : q.w = n := by omega
            exact hq (by cases q; simp_all)
          rw [if_neg (fun h => hwn h.2.2.2), if_neg (fun h => hwn1 h.2.2.2)]
      · rw [if_neg (fun h => hcol ⟨h.1, h.2.1, h.2.2.1⟩),
          if_neg (fun h => hcol ⟨h.1, h.2.1, h.2.2.1⟩)]

end Gen

namespace Gen

lemma writeYFwd_spec (rooms : Rooms) (x y nextZ w nextW : Nat) (oneWay : Bool) :
    ∀ (n : Nat) (r2 : Rooms), writeYFwd rooms x y nextZ w nextW oneWay n = some r2 →
      (∀ q, q ≠ ⟨x, y, nextZ, w⟩ → r2 q = rooms q) ∧
      (nextZ < n ∧ w = nextW →
        r2 ⟨x, y, nextZ, w⟩ =
          { rooms ⟨x, y, nextZ, w⟩ with
              passageY := if oneWay then .oneWayForward else .passable }) ∧
      (¬ (nextZ < n ∧ w = nextW) → r2 = rooms) := by
  intro n
  induction n with
  | zero =>
    intro r2 h
    rw [writeYFwd, Option.some.injEq] at h
    subst h
    exact ⟨fun q _ => rfl, fun hc => absurd hc.1 (Nat.not_lt_zero nextZ), fun _ => rfl⟩
  | succ n ih =>
    intro r2 h
    rw [writeYFwd] at h
    rcases hm : writeYFwd rooms x y nextZ w nextW oneWay n with _ | r1 <;> rw [hm] at h <;>
      dsimp only at h
    · cases h
    · obtain ⟨ih1, ih2, ih3⟩ := ih r1 hm
      by_cases hcond : n = nextZ ∧ w = nextW
      · rw [if_pos hcond, Option.some.injEq] at h
        subst h
        obtain ⟨hz, hw⟩ := hcond
        subst hz
        have hr1 : r1 = rooms := ih3 (fun hc => absurd hc.1 (Nat.lt_irrefl _))
        subst hr1
        refine ⟨?_, ?_, ?_⟩
        · intro q hq
          rw [setRoom_apply, if_neg hq]
        · intro _
          rw [setRoom_apply, if_pos rfl]
        · intro hc
          exact absurd ⟨Nat.lt_succ_self _, hw⟩ hc
      · rw [if_neg hcond] at h
        have h2eq : r2 = r1 := by
          split_ifs at h <;> first | (cases h <;> rfl) | rfl
        subst h2eq
        refine ⟨ih1, ?_, ?_⟩
        · intro hc
          rcases Nat.lt_succ_iff_lt_or_eq.mp hc.1 with hlt | heq
          · exact ih2 ⟨hlt, hc.2⟩
          · exact absurd ⟨heq.symm, hc.2⟩ hcond
        · intro hc
          exact ih3 (fun hcc => hc ⟨Nat.lt_succ_of_lt hcc.1, hcc.2⟩)

lemma writeYBwd_spec (rooms : Rooms) (x nextY nextZ w nextW : Nat) (oneWay : Bool) :
    ∀ (n : Nat) (r2 : Rooms), writeYBwd rooms x nextY nextZ w nextW oneWay n = some r2 →
      (∀ q, q ≠ ⟨x, nextY, nextZ, w⟩ → r2 q = rooms q) ∧
      (nextZ < n ∧ w = nextW →
        r2 ⟨x, nextY, nextZ, w⟩ =
          { rooms ⟨x, nextY, nextZ, w⟩ with
              passageY := if oneWay then .oneWayBackward else .passable }) ∧
      (¬ (nextZ < n ∧ w = nextW) → r2 = rooms) := by
  intro n
  induction n with
  | zero =>
    intro r2 h
    rw [writeYBwd, Option.some.injEq] at h
    subst h
    exact ⟨fun q _ => rfl, fun hc => absurd hc.1 (Nat.not_lt_zero nextZ), fun _ => rfl⟩
  | succ n ih =>
    intro r2 h
    rw [writeYBwd] at h
    rcases hm : writeYBwd rooms x nextY nextZ w nextW oneWay n with _ | r1 <;> rw [hm] at h <;>
      dsimp only at h
    · cases h
    · obtain ⟨ih1, ih2, ih3⟩ := ih r1 hm
      by_cases hcond : n = nextZ ∧ w = nextW
      · rw [if_pos hcond, Option.some.injEq] at h
        subst h
        obtain ⟨hz, hw⟩ := hcond
        subst hz
        have hr1 : r1 = rooms := ih3 (fun hc => absurd hc.1 (Nat.lt_irrefl _))
        subst hr1
        refine ⟨?_, ?_, ?_⟩
        · intro q hq
          rw [setRoom_apply, if_neg hq]
        · intro _
          rw [setRoom_apply, if_pos rfl]
        · intro hc
          exact absurd ⟨Nat.lt_succ_self _, hw⟩ hc
      · rw [if_neg hcond] at h
        have h2eq : r2 = r1 := by
          split_ifs at h <;> first | (cases h <;> rfl) | rfl
        subst h2eq
        refine ⟨ih1, ?_, ?_⟩
        · intro hc
          rcases Nat.lt_succ_iff_lt_or_eq.mp hc.1 with hlt | heq
          · exact ih2 ⟨hlt, hc.2⟩
          · exact absurd ⟨heq.symm, hc.2⟩ hcond
        · intro hc
          exact ih3 (fun hcc => hc ⟨Nat.lt_succ_of_lt hcc.1, hcc.2⟩)

end Gen

namespace Gen

/-- The possible relations between the current room and an accepted
candidate: stay (a wasted direction draw), one step in x or y within
bounds, or a layer rotation. -/
def StepShape (cfg : GenCfg) (cur next : Pos4) : Prop :=
  next = cur ∨
    (0 < cur.x ∧ next = { cur with x := cur.x - 1 }) ∨
    (cur.x + 1 < cfg.width ∧ next = { cur with x := cur.x + 1 }) ∨
    (0 < cur.y ∧ next = { cur with y := cur.y - 1 }) ∨
    (cur.y + 1 < cfg.height ∧ next = { cur with y := cur.y + 1 }) ∨
    next = { cur with z := (cur.z + 1) % cfg.depth0 } ∨
    next = { cur with w := (cur.w + 1) % cfg.depth1 }

lemma visitTail_spec (P : GoalPred) (rooms : Rooms) (next : Pos4) (count : Nat)
    (oneWay visited : Bool) (rng : List Nat) (n : Pos4) (ow gr : Bool) (rng2 : List Nat)
    (h : visitTail P rooms next count oneWay visited rng = (.accept n ow gr, rng2)) :
    n = next ∧ (gr = true → P next rooms (count + 1) = true) := by
  unfold visitTail at h
  split_ifs at h with h1 h2
  · rw [Prod.mk.injEq] at h
    injection h.1 with e1 e2 e3
    exact ⟨e1.symm, fun hgr => absurd (e3.trans hgr) (by simp)⟩
  · rw [Prod.mk.injEq] at h
    injection h.1 with e1 e2 e3
    exact ⟨e1.symm, fun _ => h2⟩
  · rw [Prod.mk.injEq] at h
    exact absurd h.1 (by simp)

lemma decideCandidate_spec (cfg : GenCfg) (P : GoalPred) (rooms : Rooms) (cur next : Pos4)
    (count : Nat) (rng : List Nat) (n : Pos4) (ow gr : Bool) (rng2 : List Nat)
    (h : decideCandidate cfg P rooms cur next count rng = (.accept n ow gr, rng2)) :
    n = next ∧ (gr = true → P next rooms (count + 1) = true) := by
  unfold decideCandidate at h
  split_ifs at h with hz hw hy
  · exact visitTail_spec _ _ _ _ _ _ _ _ _ _ _ h
  · exact visitTail_spec _ _ _ _ _ _ _ _ _ _ _ h
  · rcases hscan : ywallScan cfg rooms cur next with _ | pair <;> rw [hscan] at h
    · rw [Prod.mk.injEq] at h
      exact absurd h.1 (by simp)
    · obtain ⟨aw, awo⟩ := pair
      dsimp only at h
      by_cases hgb : (awo && P next rooms (count + 1)) = true
      · rw [if_pos hgb] at h
        rw [Prod.mk.injEq] at h
        injection h.1 with e1 e2 e3
        exact ⟨e1.symm, fun _ => ((Bool.and_eq_true _ _).mp hgb).2⟩
      · rw [if_neg hgb] at h
        exact visitTail_spec _ _ _ _ _ _ _ _ _ _ _ h
  · exact visitTail_spec _ _ _ _ _ _ _ _ _ _ _ h

end Gen

namespace Gen

lemma sampleMove_spec (cfg : GenCfg) (P : GoalPred) (rooms : Rooms) (cur : Pos4)
    (count : Nat) :
    ∀ (tries : Nat) (rng : List Nat) (next : Pos4) (ow gr : Bool) (rng2 : List Nat),
      sampleMove cfg P rooms cur count tries rng = (some (next, ow, gr), rng2) →
      StepShape cfg cur next ∧ (gr = true → P next rooms (count + 1) = true) := by
  intro tries
  induction tries with
  | zero =>
    intro rng next ow gr rng2 h
    rw [sampleMove, Prod.mk.injEq] at h
    exact absurd h.1 (by simp)
  | succ tries ih =>
    intro rng next ow gr rng2 h
    rw [sampleMove] at h
    split_ifs at h <;> (try dsimp only at h) <;>
      first
        | exact ih _ _ _ _ _ h
        | (split at h
           next => exact ih _ _ _ _ _ h
           next n2 ow2 gr2 rngX heq2 =>
             rw [Prod.mk.injEq, Option.some.injEq, Prod.mk.injEq, Prod.mk.injEq] at h
             obtain ⟨⟨hn, how, hgr⟩, hrng⟩ := h
             obtain ⟨hnn, hP⟩ := decideCandidate_spec _ _ _ _ _ _ _ _ _ _ _ heq2
             refine ⟨?_, ?_⟩
             · rw [← hn, hnn]
               unfold StepShape
               first
                 | exact Or.inl rfl
                 | exact Or.inr (Or.inl ⟨by omega, rfl⟩)
                 | exact Or.inr (Or.inr (Or.inl ⟨by omega, rfl⟩))
                 | exact Or.inr (Or.inr (Or.inr (Or.inl ⟨by omega, rfl⟩)))
                 | exact Or.inr (Or.inr (Or.inr (Or.inr (Or.inl ⟨by omega, rfl⟩))))
                 | exact Or.inr (Or.inr (Or.inr (Or.inr (Or.inr (Or.inl rfl)))))
                 | exact Or.inr (Or.inr (Or.inr (Or.inr (Or.inr (Or.inr rfl)))))
             · intro hgrt
               rw [← hn, hnn]
               exact hP (hgr.trans hgrt))

end Gen

namespace Gen

lemma Inv_extend (cfg : GenCfg) (rooms r2 : Rooms) (cur : Pos4) (S : Pos4 → Prop)
    (hinv : Inv cfg rooms) (hv : (rooms cur).pathCount ≠ 0) (hle : roomsLe rooms r2)
    (hchar : ∀ p, (r2 p).pathCount ≠ 0 → S p ∨ (rooms p).pathCount ≠ 0)
    (hS : ∀ p, S p → inBounds cfg p ∧ conn cfg r2 cur p) :
    Inv cfg r2 := by
  intro p hp
  rcases hchar p hp with hs | hold
  · obtain ⟨hbp, hcp⟩ := hS p hs
    exact ⟨hbp, Relation.ReflTransGen.trans (conn_mono hle (hinv cur hv).2) hcp⟩
  · obtain ⟨hbp, hcp⟩ := hinv p hold
    exact ⟨hbp, conn_mono hle hcp⟩

lemma stepShape_inBounds (cfg : GenCfg) (cur next : Pos4) (hb : inBounds cfg cur)
    (hs : StepShape cfg cur next) : inBounds cfg next := by
  obtain ⟨hb1, hb2, hb3, hb4⟩ := hb
  rcases hs with rfl | ⟨h, rfl⟩ | ⟨h, rfl⟩ | ⟨h, rfl⟩ | ⟨h, rfl⟩ | rfl | rfl
  · exact ⟨hb1, hb2, hb3, hb4⟩
  · exact ⟨show cur.x - 1 < cfg.width by omega, hb2, hb3, hb4⟩
  · exact ⟨show cur.x + 1 < cfg.width from h, hb2, hb3, hb4⟩
  · exact ⟨hb1, show cur.y - 1 < cfg.height by omega, hb3, hb4⟩
  · exact ⟨hb1, show cur.y + 1 < cfg.height from h, hb3, hb4⟩
  · exact ⟨hb1, hb2, show (cur.z + 1) % cfg.depth0 < cfg.depth0 from Nat.mod_lt _ (by omega),
      hb4⟩
  · exact ⟨hb1, hb2, hb3,
      show (cur.w + 1) % cfg.depth1 < cfg.depth1 from Nat.mod_lt _ (by omega)⟩

/-- Any two cells of a z-column whose inner z-passages are all open are
connected. -/
lemma zColumn_conn (cfg : GenCfg) (r : Rooms) (x y w : Nat)
    (hx : x < cfg.width) (hy : y < cfg.height) (hw : w < cfg.depth1)
    (hopen : ∀ z, z < cfg.depth0 - 1 → (r ⟨x, y, z, w⟩).passageZ ≠ .wall) :
    ∀ z1 z2, z1 < cfg.depth0 → z2 < cfg.depth0 →
      conn cfg r ⟨x, y, z1, w⟩ ⟨x, y, z2, w⟩ := by
  have base : ∀ z, z < cfg.depth0 → conn cfg r ⟨x, y, 0, w⟩ ⟨x, y, z, w⟩ := by
    intro z
    induction z with
    | zero => intro _; exact Relation.ReflTransGen.refl
    | succ z ih =>
      intro hz
      refine Relation.ReflTransGen.tail (ih (by omega)) ?_
      refine ⟨⟨hx, hy, show z < cfg.depth0 by omega, hw⟩, ⟨hx, hy, hz, hw⟩, ?_⟩
      exact Or.inr (Or.inr (Or.inr (Or.inr (Or.inl ⟨rfl, hopen z (by omega)⟩))))
  intro z1 z2 h1 h2
  exact Relation.ReflTransGen.trans (conn_symm (base z1 h1)) (base z2 h2)

/-- Any two cells of a w-column whose inner w-passages are all open are
connected. -/
lemma wColumn_conn (cfg : GenCfg) (r : Rooms) (x y z : Nat)
    (hx : x < cfg.width) (hy : y < cfg.height) (hz : z < cfg.depth0)
    (hopen : ∀ w, w < cfg.depth1 - 1 → (r ⟨x, y, z, w⟩).passageW ≠ .wall) :
    ∀ w1 w2, w1 < cfg.depth1 → w2 < cfg.depth1 →
      conn cfg r ⟨x, y, z, w1⟩ ⟨x, y, z, w2⟩ := by
  have base : ∀ w, w < cfg.depth1 → conn cfg r ⟨x, y, z, 0⟩ ⟨x, y, z, w⟩ := by
    intro w
    induction w with
    | zero => intro _; exact Relation.ReflTransGen.refl
    | succ w ih =>
      intro hw
      refine Relation.ReflTransGen.tail (ih (by omega)) ?_
      refine ⟨⟨hx, hy, hz, show w < cfg.depth1 by omega⟩, ⟨hx, hy, hz, hw⟩, ?_⟩
      exact Or.inr (Or.inr (Or.inr (Or.inr (Or.inr (Or.inr (Or.inl ⟨rfl, hopen w (by omega)⟩))))))
  intro w1 w2 h1 h2
  exact Relation.ReflTransGen.trans (conn_symm (base w1 h1)) (base w2 h2)

end Gen

namespace Gen

lemma roomLe_stamp (a : Room) (c : Nat) (hc : c ≠ 0) :
    roomLe a { a with pathCount := c } :=
  ⟨fun h => h, fun h => h, fun h => h, fun h => h, fun _ => hc⟩

lemma roomLe_openX (a : Room) (p : Passage) (hp : p ≠ .wall) :
    roomLe a { a with passageX := p } :=
  ⟨fun _ => hp, fun h => h, fun h => h, fun h => h, fun h => h⟩

lemma roomLe_openY (a : Room) (p : Passage) (hp : p ≠ .wall) :
    roomLe a { a with passageY := p } :=
  ⟨fun h => h, fun _ => hp, fun h => h, fun h => h, fun h => h⟩

lemma roomLe_openZ (a : Room) (p : Passage) (hp : p ≠ .wall) :
    roomLe a { a with passageZ := p } :=
  ⟨fun h => h, fun h => h, fun _ => hp, fun h => h, fun h => h⟩

lemma roomLe_openW (a : Room) (p : Passage) (hp : p ≠ .wall) :
    roomLe a { a with passageW := p } :=
  ⟨fun h => h, fun h => h, fun h => h, fun _ => hp, fun h => h⟩

/-- Common tail of an accepted non-layer step: stamping pathCount count+1
at the target preserves the invariant when the step edge is open. -/
lemma setStamp_inv (cfg : GenCfg) (rooms r1 : Rooms) (cur next : Pos4) (count : Nat)
    (hinv : Inv cfg rooms) (hv : (rooms cur).pathCount ≠ 0) (hb2 : inBounds cfg next)
    (hle : roomsLe rooms r1)
    (hpc : ∀ p, (r1 p).pathCount = (rooms p).pathCount)
    (hconn : conn cfg (setRoom r1 next fun rm => { rm with pathCount := count + 1 })
      cur next) :
    Inv cfg (setRoom r1 next fun rm => { rm with pathCount := count + 1 }) ∧
      roomsLe rooms (setRoom r1 next fun rm => { rm with pathCount := count + 1 }) ∧
      ((setRoom r1 next fun rm => { rm with pathCount := count + 1 }) next).pathCount ≠ 0 := by
  have hle2 : roomsLe rooms (setRoom r1 next fun rm => { rm with pathCount := count + 1 }) := by
    intro p
    rw [setRoom_apply]
    split
    · next hp =>
      subst hp
      exact roomLe_trans (hle p) (roomLe_stamp _ _ (Nat.succ_ne_zero count))
    · next hp => exact hle p
  refine ⟨?_, hle2, ?_⟩
  · refine Inv_extend cfg rooms _ cur (fun p => p = next) hinv hv hle2 ?_ ?_
    · intro p hp
      rw [setRoom_apply] at hp
      by_cases hpn : p = next
      · exact Or.inl hpn
      · rw [if_neg hpn, hpc p] at hp
        exact Or.inr hp
    · intro p hp
      subst hp
      exact ⟨hb2, hconn⟩
  · rw [setRoom_apply, if_pos rfl]
    exact Nat.succ_ne_zero count

/-- A wasted draw (next = cur): the stamp at cur preserves the invariant. -/
lemma step_stay_full_inv (cfg : GenCfg) (rooms r1 : Rooms) (cx cy cz cw count : Nat)
    (oneWay : Bool) (hinv : Inv cfg rooms)
    (hx : cx < cfg.width) (hy : cy < cfg.height) (hz : cz < cfg.depth0)
    (hw : cw < cfg.depth1)
    (hv : (rooms ⟨cx, cy, cz, cw⟩).pathCount ≠ 0)
    (hap : applyPassage cfg rooms ⟨cx, cy, cz, cw⟩ ⟨cx, cy, cz, cw⟩ oneWay = some r1) :
    Inv cfg (applyStamp cfg r1 ⟨cx, cy, cz, cw⟩ ⟨cx, cy, cz, cw⟩ count) ∧
      roomsLe rooms (applyStamp cfg r1 ⟨cx, cy, cz, cw⟩ ⟨cx, cy, cz, cw⟩ count) ∧
      ((applyStamp cfg r1 ⟨cx, cy, cz, cw⟩ ⟨cx, cy, cz, cw⟩ count)
        ⟨cx, cy, cz, cw⟩).pathCount ≠ 0 := by
  rw [applyPassage] at hap
  dsimp only at hap
  rw [if_neg (Nat.lt_irrefl cx), if_neg (Nat.lt_irrefl cx), if_neg (Nat.lt_irrefl cy),
    if_neg (Nat.lt_irrefl cy), if_neg (fun hcc => hcc rfl), if_neg (fun hcc => hcc rfl),
    Option.some.injEq] at hap
  subst hap
  have hstamp : applyStamp cfg rooms ⟨cx, cy, cz, cw⟩ ⟨cx, cy, cz, cw⟩ count =
      setRoom rooms ⟨cx, cy, cz, cw⟩ fun rm => { rm with pathCount := count + 1 } := by
    rw [applyStamp]
    dsimp only
    rw [if_neg (fun hcc => hcc rfl), if_neg (fun hcc => hcc rfl)]
  rw [hstamp]
  exact setStamp_inv cfg rooms rooms ⟨cx, cy, cz, cw⟩ ⟨cx, cy, cz, cw⟩ count hinv hv
    ⟨hx, hy, hz, hw⟩ (roomsLe_refl rooms) (fun _ => rfl) Relation.ReflTransGen.refl

end Gen

namespace Gen

/-- An accepted step to the right neighbour preserves the invariant. -/
lemma step_xf_inv (cfg : GenCfg) (rooms r1 : Rooms) (cx cy cz cw count : Nat)
    (oneWay : Bool) (hinv : Inv cfg rooms)
    (hx : cx + 1 < cfg.width) (hy : cy < cfg.height) (hz : cz < cfg.depth0)
    (hw : cw < cfg.depth1)
    (hv : (rooms ⟨cx, cy, cz, cw⟩).pathCount ≠ 0)
    (hap : applyPassage cfg rooms ⟨cx, cy, cz, cw⟩ ⟨cx + 1, cy, cz, cw⟩ oneWay = some r1) :
    Inv cfg (applyStamp cfg r1 ⟨cx, cy, cz, cw⟩ ⟨cx + 1, cy, cz, cw⟩ count) ∧
      roomsLe rooms (applyStamp cfg r1 ⟨cx, cy, cz, cw⟩ ⟨cx + 1, cy, cz, cw⟩ count) ∧
      ((applyStamp cfg r1 ⟨cx, cy, cz, cw⟩ ⟨cx + 1, cy, cz, cw⟩ count)
        ⟨cx + 1, cy, cz, cw⟩).pathCount ≠ 0 := by
  rw [applyPassage] at hap
  dsimp only at hap
  rw [if_pos (Nat.lt_succ_self cx), Option.some.injEq] at hap
  subst hap
  have hstamp : applyStamp cfg (setRoom rooms ⟨cx, cy, cz, cw⟩ fun rm =>
        { rm with passageX := Passage.passable }) ⟨cx, cy, cz, cw⟩
        ⟨cx + 1, cy, cz, cw⟩ count =
      setRoom (setRoom rooms ⟨cx, cy, cz, cw⟩ fun rm =>
        { rm with passageX := Passage.passable }) ⟨cx + 1, cy, cz, cw⟩ fun rm =>
        { rm with pathCount := count + 1 } := by
    rw [applyStamp]
    dsimp only
    rw [if_neg (fun hcc => hcc rfl), if_neg (fun hcc => hcc rfl)]
  rw [hstamp]
  have hne : (⟨cx, cy, cz, cw⟩ : Pos4) ≠ ⟨cx + 1, cy, cz, cw⟩ := by
    intro hcc
    injection hcc with h1 h2 h3 h4
    omega
  refine setStamp_inv cfg rooms _ ⟨cx, cy, cz, cw⟩ ⟨cx + 1, cy, cz, cw⟩ count hinv hv
    ⟨hx, hy, hz, hw⟩ ?_ ?_ ?_
  · intro p
    rw [setRoom_apply]
    split
    · next hp =>
      subst hp
      exact roomLe_openX _ _ (by decide)
    · next hp => exact roomLe_refl _
  · intro p
    rw [setRoom_apply]
    split
    · next hp => rw [hp]
    · next hp => rfl
  · refine Relation.ReflTransGen.single ?_
    refine ⟨⟨show cx < cfg.width by omega, hy, hz, hw⟩, ⟨hx, hy, hz, hw⟩,
      Or.inl ⟨rfl, ?_⟩⟩
    rw [setRoom_apply, if_neg hne, setRoom_apply, if_pos rfl]
    exact (show Passage.passable ≠ Passage.wall by decide)

/-- An accepted step to the left neighbour preserves the invariant. -/
lemma step_xb_inv (cfg : GenCfg) (rooms r1 : Rooms) (cx cy cz cw count : Nat)
    (oneWay : Bool) (hinv : Inv cfg rooms)
    (hx : cx < cfg.width) (hy : cy < cfg.height) (hz : cz < cfg.depth0)
    (hw : cw < cfg.depth1) (hpos : 0 < cx)
    (hv : (rooms ⟨cx, cy, cz, cw⟩).pathCount ≠ 0)
    (hap : applyPassage cfg rooms ⟨cx, cy, cz, cw⟩ ⟨cx - 1, cy, cz, cw⟩ oneWay = some r1) :
    Inv cfg (applyStamp cfg r1 ⟨cx, cy, cz, cw⟩ ⟨cx - 1, cy, cz, cw⟩ count) ∧
      roomsLe rooms (applyStamp cfg r1 ⟨cx, cy, cz, cw⟩ ⟨cx - 1, cy, cz, cw⟩ count) ∧
      ((applyStamp cfg r1 ⟨cx, cy, cz, cw⟩ ⟨cx - 1, cy, cz, cw⟩ count)
        ⟨cx - 1, cy, cz, cw⟩).pathCount ≠ 0 := by
  rw [applyPassage] at hap
  dsimp only at hap
  rw [if_neg (by omega : ¬ cx < cx - 1), if_pos (by omega : cx - 1 < cx),
    Option.some.injEq] at hap
  subst hap
  have hstamp : applyStamp cfg (setRoom rooms ⟨cx - 1, cy, cz, cw⟩ fun rm =>
        { rm with passageX := Passage.passable }) ⟨cx, cy, cz, cw⟩
        ⟨cx - 1, cy, cz, cw⟩ count =
      setRoom (setRoom rooms ⟨cx - 1, cy, cz, cw⟩ fun rm =>
        { rm with passageX := Passage.passable }) ⟨cx - 1, cy, cz, cw⟩ fun rm =>
        { rm with pathCount := count + 1 } := by
    rw [applyStamp]
    dsimp only
    rw [if_neg (fun hcc => hcc rfl), if_neg (fun hcc => hcc rfl)]
  rw [hstamp]
  refine setStamp_inv cfg rooms _ ⟨cx, cy, cz, cw⟩ ⟨cx - 1, cy, cz, cw⟩ count hinv hv
    ⟨show cx - 1 < cfg.width by omega, hy, hz, hw⟩ ?_ ?_ ?_
  · intro p
    rw [setRoom_apply]
    split
    · next hp =>
      subst hp
      exact roomLe_openX _ _ (by decide)
    · next hp => exact roomLe_refl _
  · intro p
    rw [setRoom_apply]
    split
    · next hp => rw [hp]
    · next hp => rfl
  · refine Relation.ReflTransGen.single ?_
    refine ⟨⟨hx, hy, hz, hw⟩, ⟨show cx - 1 < cfg.width by omega, hy, hz, hw⟩,
      Or.inr (Or.inl ⟨?_, ?_⟩)⟩
    · show (⟨cx, cy, cz, cw⟩ : Pos4) = ⟨cx - 1 + 1, cy, cz, cw⟩
      have h9 : cx - 1 + 1 = cx := by omega
      rw [h9]
    · rw [setRoom_apply, if_pos rfl, setRoom_apply, if_pos rfl]
      exact (show Passage.passable ≠ Passage.wall by decide)

end Gen

namespace Gen

/-- An accepted upward step (y + 1) preserves the invariant. -/
lemma step_yf_inv (cfg : GenCfg) (rooms r1 : Rooms) (cx cy cz cw count : Nat)
    (oneWay : Bool) (hinv : Inv cfg rooms)
    (hx : cx < cfg.width) (hy : cy + 1 < cfg.height) (hz : cz < cfg.depth0)
    (hw : cw < cfg.depth1)
    (hv : (rooms ⟨cx, cy, cz, cw⟩).pathCount ≠ 0)
    (hap : applyPassage cfg rooms ⟨cx, cy, cz, cw⟩ ⟨cx, cy + 1, cz, cw⟩ oneWay = some r1) :
    Inv cfg (applyStamp cfg r1 ⟨cx, cy, cz, cw⟩ ⟨cx, cy + 1, cz, cw⟩ count) ∧
      roomsLe rooms (applyStamp cfg r1 ⟨cx, cy, cz, cw⟩ ⟨cx, cy + 1, cz, cw⟩ count) ∧
      ((applyStamp cfg r1 ⟨cx, cy, cz, cw⟩ ⟨cx, cy + 1, cz, cw⟩ count)
        ⟨cx, cy + 1, cz, cw⟩).pathCount ≠ 0 := by
  rw [applyPassage] at hap
  dsimp only at hap
  rw [if_neg (Nat.lt_irrefl cx), if_neg (Nat.lt_irrefl cx),
    if_pos (Nat.lt_succ_self cy)] at hap
  obtain ⟨w1, w2, w3⟩ := writeYFwd_spec rooms cx cy cz cw cw oneWay cfg.depth0 r1 hap
  have hcur : r1 ⟨cx, cy, cz, cw⟩ = { rooms ⟨cx, cy, cz, cw⟩ with
      passageY := if oneWay then Passage.oneWayForward else Passage.passable } :=
    w2 ⟨hz, rfl⟩
  have hstamp : applyStamp cfg r1 ⟨cx, cy, cz, cw⟩ ⟨cx, cy + 1, cz, cw⟩ count =
      setRoom r1 ⟨cx, cy + 1, cz, cw⟩ fun rm => { rm with pathCount := count + 1 } := by
    rw [applyStamp]
    dsimp only
    rw [if_neg (fun hcc => hcc rfl), if_neg (fun hcc => hcc rfl)]
  rw [hstamp]
  have hyne : (⟨cx, cy, cz, cw⟩ : Pos4) ≠ ⟨cx, cy + 1, cz, cw⟩ := by
    intro hcc
    injection hcc with h1 h2 h3 h4
    omega
  have hitne : (if oneWay then Passage.oneWayForward else Passage.passable) ≠ .wall := by
    cases oneWay <;> decide
  refine setStamp_inv cfg rooms r1 ⟨cx, cy, cz, cw⟩ ⟨cx, cy + 1, cz, cw⟩ count hinv hv
    ⟨hx, hy, hz, hw⟩ ?_ ?_ ?_
  · intro p
    by_cases hp : p = ⟨cx, cy, cz, cw⟩
    · rw [hp, hcur]
      exact roomLe_openY _ _ hitne
    · rw [w1 p hp]
      exact roomLe_refl _
  · intro p
    by_cases hp : p = ⟨cx, cy, cz, cw⟩
    · rw [hp, hcur]
    · rw [w1 p hp]
  · refine Relation.ReflTransGen.single ?_
    refine ⟨⟨hx, show cy < cfg.height by omega, hz, hw⟩, ⟨hx, hy, hz, hw⟩,
      Or.inr (Or.inr (Or.inl ⟨rfl, ?_⟩))⟩
    rw [setRoom_apply, if_neg hyne, hcur]
    exact hitne

/-- An accepted downward step (y - 1) preserves the invariant. -/
lemma step_yb_inv (cfg : GenCfg) (rooms r1 : Rooms) (cx cy cz cw count : Nat)
    (oneWay : Bool) (hinv : Inv cfg rooms)
    (hx : cx < cfg.width) (hy : cy < cfg.height) (hz : cz < cfg.depth0)
    (hw : cw < cfg.depth1) (hpos : 0 < cy)
    (hv : (rooms ⟨cx, cy, cz, cw⟩).pathCount ≠ 0)
    (hap : applyPassage cfg rooms ⟨cx, cy, cz, cw⟩ ⟨cx, cy - 1, cz, cw⟩ oneWay = some r1) :
    Inv cfg (applyStamp cfg r1 ⟨cx, cy, cz, cw⟩ ⟨cx, cy - 1, cz, cw⟩ count) ∧
      roomsLe rooms (applyStamp cfg r1 ⟨cx, cy, cz, cw⟩ ⟨cx, cy - 1, cz, cw⟩ count) ∧
      ((applyStamp cfg r1 ⟨cx, cy, cz, cw⟩ ⟨cx, cy - 1, cz, cw⟩ count)
        ⟨cx, cy - 1, cz, cw⟩).pathCount ≠ 0 := by
  rw [applyPassage] at hap
  dsimp only at hap
  rw [if_neg (Nat.lt_irrefl cx), if_neg (Nat.lt_irrefl cx),
    if_neg (by omega : ¬ cy < cy - 1), if_pos (by omega : cy - 1 < cy)] at hap
  obtain ⟨w1, w2, w3⟩ := writeYBwd_spec rooms cx (cy - 1) cz cw cw oneWay cfg.depth0 r1 hap
  have hnext : r1 ⟨cx, cy - 1, cz, cw⟩ = { rooms ⟨cx, cy - 1, cz, cw⟩ with
      passageY := if oneWay then Passage.oneWayBackward else Passage.passable } :=
    w2 ⟨hz, rfl⟩
  have hstamp : applyStamp cfg r1 ⟨cx, cy, cz, cw⟩ ⟨cx, cy - 1, cz, cw⟩ count =
      setRoom r1 ⟨cx, cy - 1, cz, cw⟩ fun rm => { rm with pathCount := count + 1 } := by
    rw [applyStamp]
    dsimp only
    rw [if_neg (fun hcc => hcc rfl), if_neg (fun hcc => hcc rfl)]
  rw [hstamp]
  have hitne : (if oneWay then Passage.oneWayBackward else Passage.passable) ≠ .wall := by
    cases oneWay <;> decide
  refine setStamp_inv cfg rooms r1 ⟨cx, cy, cz, cw⟩ ⟨cx, cy - 1, cz, cw⟩ count hinv hv
    ⟨hx, show cy - 1 < cfg.height by omega, hz, hw⟩ ?_ ?_ ?_
  · intro p
    by_cases hp : p = ⟨cx, cy - 1, cz, cw⟩
    · rw [hp, hnext]
      exact roomLe_openY _ _ hitne
    · rw [w1 p hp]
      exact roomLe_refl _
  · intro p
    by_cases hp : p = ⟨cx, cy - 1, cz, cw⟩
    · rw [hp, hnext]
    · rw [w1 p hp]
  · refine Relation.ReflTransGen.single ?_
    refine ⟨⟨hx, hy, hz, hw⟩, ⟨hx, show cy - 1 < cfg.height by omega, hz, hw⟩,
      Or.inr (Or.inr (Or.inr (Or.inl ⟨?_, ?_⟩)))⟩
    · show (⟨cx, cy, cz, cw⟩ : Pos4) = ⟨cx, cy - 1 + 1, cz, cw⟩
      have h9 : cy - 1 + 1 = cy := by omega
      rw [h9]
    · rw [setRoom_apply, if_pos rfl, hnext]
      exact hitne

end Gen

namespace Gen

/-- A z-layer rotation: opening the inner z-column and stamping every layer
of the column preserves the invariant and visits the whole column. -/
lemma zmove_inv (cfg : GenCfg) (rooms : Rooms) (cx cy cz cw count : Nat)
    (hcnt : 0 < count) (hinv : Inv cfg rooms)
    (hx : cx < cfg.width) (hy : cy < cfg.height) (hz : cz < cfg.depth0)
    (hw : cw < cfg.depth1)
    (hv : (rooms ⟨cx, cy, cz, cw⟩).pathCount ≠ 0) :
    Inv cfg (stampZColumn (setZColumn rooms cx cy cw (cfg.depth0 - 1)) cx cy cw cz count
        cfg.depth0) ∧
      roomsLe rooms (stampZColumn (setZColumn rooms cx cy cw (cfg.depth0 - 1)) cx cy cw cz
        count cfg.depth0) ∧
      ∀ q : Pos4, q.x = cx → q.y = cy → q.w = cw → q.z < cfg.depth0 →
        ((stampZColumn (setZColumn rooms cx cy cw (cfg.depth0 - 1)) cx cy cw cz count
          cfg.depth0) q).pathCount ≠ 0 := by
  have hle2 : roomsLe rooms (stampZColumn (setZColumn rooms cx cy cw (cfg.depth0 - 1))
      cx cy cw cz count cfg.depth0) := by
    intro p
    rw [stampZColumn_apply, setZColumn_apply]
    split_ifs with h1 h2 h3
    · exact roomLe_trans (roomLe_openZ _ _ (by decide)) (roomLe_stamp _ _ (by omega))
    · exact roomLe_stamp _ _ (by omega)
    · exact roomLe_openZ _ _ (by decide)
    · exact roomLe_refl _
  refine ⟨?_, hle2, ?_⟩
  · refine Inv_extend cfg rooms _ ⟨cx, cy, cz, cw⟩
      (fun p => p.x = cx ∧ p.y = cy ∧ p.w = cw ∧ p.z < cfg.depth0) hinv hv hle2 ?_ ?_
    · intro p hp
      rw [stampZColumn_apply, setZColumn_apply] at hp
      split_ifs at hp with h1 h2 h3
      · exact Or.inl h1
      · exact Or.inl h1
      · exact Or.inr hp
      · exact Or.inr hp
    · intro p hp
      obtain ⟨hpx, hpy, hpw, hpz⟩ := hp
      obtain ⟨px, py, pz, pw⟩ := p
      have hpx1 : px = cx := hpx
      have hpy1 : py = cy := hpy
      have hpw1 : pw = cw := hpw
      have hpz1 : pz < cfg.depth0 := hpz
      subst hpx1
      subst hpy1
      subst hpw1
      refine ⟨⟨hx, hy, hpz1, hw⟩, ?_⟩
      refine zColumn_conn cfg _ px py pw hx hy hw ?_ cz pz hz hpz1
      intro z hzlt
      rw [stampZColumn_apply, setZColumn_apply]
      rw [if_pos (⟨rfl, rfl, rfl, show z < cfg.depth0 by omega⟩ :
        (⟨px, py, z, pw⟩ : Pos4).x = px ∧ (⟨px, py, z, pw⟩ : Pos4).y = py ∧
          (⟨px, py, z, pw⟩ : Pos4).w = pw ∧ (⟨px, py, z, pw⟩ : Pos4).z < cfg.depth0)]
      rw [if_pos (⟨rfl, rfl, rfl, hzlt⟩ :
        (⟨px, py, z, pw⟩ : Pos4).x = px ∧ (⟨px, py, z, pw⟩ : Pos4).y = py ∧
          (⟨px, py, z, pw⟩ : Pos4).w = pw ∧ (⟨px, py, z, pw⟩ : Pos4).z < cfg.depth0 - 1)]
      exact (show Passage.passable ≠ Passage.wall by decide)
  · intro q hqx hqy hqw hqz
    rw [stampZColumn_apply, setZColumn_apply]
    rw [if_pos ⟨hqx, hqy, hqw, hqz⟩]
    show count + absDiff cz q.z ≠ 0
    omega

/-- A w-layer rotation: opening the inner w-column and stamping every layer
of the column preserves the invariant and visits the whole column. -/
lemma wmove_inv (cfg : GenCfg) (rooms : Rooms) (cx cy cz cw count : Nat)
    (hcnt : 0 < count) (hinv : Inv cfg rooms)
    (hx : cx < cfg.width) (hy : cy < cfg.height) (hz : cz < cfg.depth0)
    (hw : cw < cfg.depth1)
    (hv : (rooms ⟨cx, cy, cz, cw⟩).pathCount ≠ 0) :
    Inv cfg (stampWColumn (setWColumn rooms cx cy cz (cfg.depth1 - 1)) cx cy cz cw count
        cfg.depth1) ∧
      roomsLe rooms (stampWColumn (setWColumn rooms cx cy cz (cfg.depth1 - 1)) cx cy cz cw
        count cfg.depth1) ∧
      ∀ q : Pos4, q.x = cx → q.y = cy → q.z = cz → q.w < cfg.depth1 →
        ((stampWColumn (setWColumn rooms cx cy cz (cfg.depth1 - 1)) cx cy cz cw count
          cfg.depth1) q).pathCount ≠ 0 := by
  have hle2 : roomsLe rooms (stampWColumn (setWColumn rooms cx cy cz (cfg.depth1 - 1))
      cx cy cz cw count cfg.depth1) := by
    intro p
    rw [stampWColumn_apply, setWColumn_apply]
    split_ifs with h1 h2 h3
    · exact roomLe_trans (roomLe_openW _ _ (by decide)) (roomLe_stamp _ _ (by omega))
    · exact roomLe_stamp _ _ (by omega)
    · exact roomLe_openW _ _ (by decide)
    · exact roomLe_refl _
  refine ⟨?_, hle2, ?_⟩
  · refine Inv_extend cfg rooms _ ⟨cx, cy, cz, cw⟩
      (fun p => p.x = cx ∧ p.y = cy ∧ p.z = cz ∧ p.w < cfg.depth1) hinv hv hle2 ?_ ?_
    · intro p hp
      rw [stampWColumn_apply, setWColumn_apply] at hp
      split_ifs at hp with h1 h2 h3
      · exact Or.inl h1
      · exact Or.inl h1
      · exact Or.inr hp
      · exact Or.inr hp
    · intro p hp
      obtain ⟨hpx, hpy, hpz, hpw⟩ := hp
      obtain ⟨px, py, pz, pw⟩ := p
      have hpx1 : px = cx := hpx
      have hpy1 : py = cy := hpy
      have hpz1 : pz = cz := hpz
      have hpw1 : pw < cfg.depth1 := hpw
      subst hpx1
      subst hpy1
      subst hpz1
      refine ⟨⟨hx, hy, hz, hpw1⟩, ?_⟩
      refine wColumn_conn cfg _ px py pz hx hy hz ?_ cw pw hw hpw1
      intro w hwlt
      rw [stampWColumn_apply, setWColumn_apply]
      rw [if_pos (⟨rfl, rfl, rfl, show w < cfg.depth1 by omega⟩ :
        (⟨px, py, pz, w⟩ : Pos4).x = px ∧ (⟨px, py, pz, w⟩ : Pos4).y = py ∧
          (⟨px, py, pz, w⟩ : Pos4).z = pz ∧ (⟨px, py, pz, w⟩ : Pos4).w < cfg.depth1)]
      rw [if_pos (⟨rfl, rfl, rfl, hwlt⟩ :
        (⟨px, py, pz, w⟩ : Pos4).x = px ∧ (⟨px, py, pz, w⟩ : Pos4).y = py ∧
          (⟨px, py, pz, w⟩ : Pos4).z = pz ∧ (⟨px, py, pz, w⟩ : Pos4).w < cfg.depth1 - 1)]
      exact (show Passage.passable ≠ Passage.wall by decide)
  · intro q hqx hqy hqz hqw
    rw [stampWColumn_apply, setWColumn_apply]
    rw [if_pos ⟨hqx, hqy, hqz, hqw⟩]
    show count + absDiff cw q.w ≠ 0
    omega

end Gen

namespace Gen

/-- An accepted z-layer rotation step preserves the invariant. -/
lemma step_z_inv (cfg : GenCfg) (rooms r1 : Rooms) (cx cy cz cw count : Nat)
    (oneWay : Bool) (hcnt : 0 < count) (hinv : Inv cfg rooms)
    (hx : cx < cfg.width) (hy : cy < cfg.height) (hz : cz < cfg.depth0)
    (hw : cw < cfg.depth1)
    (hv : (rooms ⟨cx, cy, cz, cw⟩).pathCount ≠ 0)
    (hap : applyPassage cfg rooms ⟨cx, cy, cz, cw⟩
      ⟨cx, cy, (cz + 1) % cfg.depth0, cw⟩ oneWay = some r1) :
    Inv cfg (applyStamp cfg r1 ⟨cx, cy, cz, cw⟩
        ⟨cx, cy, (cz + 1) % cfg.depth0, cw⟩ count) ∧
      roomsLe rooms (applyStamp cfg r1 ⟨cx, cy, cz, cw⟩
        ⟨cx, cy, (cz + 1) % cfg.depth0, cw⟩ count) ∧
      ((applyStamp cfg r1 ⟨cx, cy, cz, cw⟩ ⟨cx, cy, (cz + 1) % cfg.depth0, cw⟩ count)
        ⟨cx, cy, (cz + 1) % cfg.depth0, cw⟩).pathCount ≠ 0 := by
  by_cases hzz : (cz + 1) % cfg.depth0 = cz
  · rw [hzz] at hap ⊢
    exact step_stay_full_inv cfg rooms r1 cx cy cz cw count oneWay hinv hx hy hz hw hv hap
  · rw [applyPassage] at hap
    dsimp only at hap
    rw [if_neg (Nat.lt_irrefl cx), if_neg (Nat.lt_irrefl cx), if_neg (Nat.lt_irrefl cy),
      if_neg (Nat.lt_irrefl cy), if_pos (fun hcc => hzz hcc.symm),
      Option.some.injEq] at hap
    subst hap
    have hstamp : applyStamp cfg (setZColumn rooms cx cy cw (cfg.depth0 - 1))
        ⟨cx, cy, cz, cw⟩ ⟨cx, cy, (cz + 1) % cfg.depth0, cw⟩ count =
        stampZColumn (setZColumn rooms cx cy cw (cfg.depth0 - 1)) cx cy cw cz count
          cfg.depth0 := by
      rw [applyStamp]
      dsimp only
      rw [if_pos (fun hcc => hzz hcc.symm)]
    rw [hstamp]
    obtain ⟨h1, h2, h3⟩ := zmove_inv cfg rooms cx cy cz cw count hcnt hinv hx hy hz hw hv
    exact ⟨h1, h2, h3 ⟨cx, cy, (cz + 1) % cfg.depth0, cw⟩ rfl rfl rfl
      (Nat.mod_lt _ (by omega))⟩

/-- An accepted w-layer rotation step preserves the invariant. -/
lemma step_w_inv (cfg : GenCfg) (rooms r1 : Rooms) (cx cy cz cw count : Nat)
    (oneWay : Bool) (hcnt : 0 < count) (hinv : Inv cfg rooms)
    (hx : cx < cfg.width) (hy : cy < cfg.height) (hz : cz < cfg.depth0)
    (hw : cw < cfg.depth1)
    (hv : (rooms ⟨cx, cy, cz, cw⟩).pathCount ≠ 0)
    (hap : applyPassage cfg rooms ⟨cx, cy, cz, cw⟩
      ⟨cx, cy, cz, (cw + 1) % cfg.depth1⟩ oneWay = some r1) :
    Inv cfg (applyStamp cfg r1 ⟨cx, cy, cz, cw⟩
        ⟨cx, cy, cz, (cw + 1) % cfg.depth1⟩ count) ∧
      roomsLe rooms (applyStamp cfg r1 ⟨cx, cy, cz, cw⟩
        ⟨cx, cy, cz, (cw + 1) % cfg.depth1⟩ count) ∧
      ((applyStamp cfg r1 ⟨cx, cy, cz, cw⟩ ⟨cx, cy, cz, (cw + 1) % cfg.depth1⟩ count)
        ⟨cx, cy, cz, (cw + 1) % cfg.depth1⟩).pathCount ≠ 0 := by
  by_cases hww : (cw + 1) % cfg.depth1 = cw
  · rw [hww] at hap ⊢
    exact step_stay_full_inv cfg rooms r1 cx cy cz cw count oneWay hinv hx hy hz hw hv hap
  · rw [applyPassage] at hap
    dsimp only at hap
    rw [if_neg (Nat.lt_irrefl cx), if_neg (Nat.lt_irrefl cx), if_neg (Nat.lt_irrefl cy),
      if_neg (Nat.lt_irrefl cy), if_neg (fun hcc => hcc rfl),
      if_pos (fun hcc => hww hcc.symm), Option.some.injEq] at hap
    subst hap
    have hstamp : applyStamp cfg (setWColumn rooms cx cy cz (cfg.depth1 - 1))
        ⟨cx, cy, cz, cw⟩ ⟨cx, cy, cz, (cw + 1) % cfg.depth1⟩ count =
        stampWColumn (setWColumn rooms cx cy cz (cfg.depth1 - 1)) cx cy cz cw count
          cfg.depth1 := by
      rw [applyStamp]
      dsimp only
      rw [if_neg (fun hcc => hcc rfl), if_pos (fun hcc => hww hcc.symm)]
    rw [hstamp]
    obtain ⟨h1, h2, h3⟩ := wmove_inv cfg rooms cx cy cz cw count hcnt hinv hx hy hz hw hv
    exact ⟨h1, h2, h3 ⟨cx, cy, cz, (cw + 1) % cfg.depth1⟩ rfl rfl rfl
      (Nat.mod_lt _ (by omega))⟩

/-- One accepted step of the path loop preserves the generation invariant,
only grows the rooms, and marks the target room visited. -/
lemma step_inv (cfg : GenCfg) (rooms r1 : Rooms) (cur next : Pos4) (oneWay : Bool)
    (count : Nat) (hcnt : 0 < count)
    (hinv : Inv cfg rooms) (hb : inBounds cfg cur) (hv : (rooms cur).pathCount ≠ 0)
    (hs : StepShape cfg cur next)
    (hap : applyPassage cfg rooms cur next oneWay = some r1) :
    Inv cfg (applyStamp cfg r1 cur next count) ∧
      roomsLe rooms (applyStamp cfg r1 cur next count) ∧
      ((applyStamp cfg r1 cur next count) next).pathCount ≠ 0 := by
  obtain ⟨cx, cy, cz, cw⟩ := cur
  obtain ⟨hx0, hy0, hz0, hw0⟩ := hb
  have hx : cx < cfg.width := hx0
  have hy : cy < cfg.height := hy0
  have hz : cz < cfg.depth0 := hz0
  have hw : cw < cfg.depth1 := hw0
  rcases hs with rfl | ⟨hc, rfl⟩ | ⟨hc, rfl⟩ | ⟨hc, rfl⟩ | ⟨hc, rfl⟩ | rfl | rfl
  · exact step_stay_full_inv cfg rooms r1 cx cy cz cw count oneWay hinv hx hy hz hw hv hap
  · exact step_xb_inv cfg rooms r1 cx cy cz cw count oneWay hinv hx hy hz hw
      (show 0 < cx from hc) hv hap
  · exact step_xf_inv cfg rooms r1 cx cy cz cw count oneWay hinv
      (show cx + 1 < cfg.width from hc) hy hz hw hv hap
  · exact step_yb_inv cfg rooms r1 cx cy cz cw count oneWay hinv hx hy hz hw
      (show 0 < cy from hc) hv hap
  · exact step_yf_inv cfg rooms r1 cx cy cz cw count oneWay hinv hx
      (show cy + 1 < cfg.height from hc) hz hw hv hap
  · exact step_z_inv cfg rooms r1 cx cy cz cw count oneWay hcnt hinv hx hy hz hw hv hap
  · exact step_w_inv cfg rooms r1 cx cy cz cw count oneWay hcnt hinv hx hy hz hw hv hap

end Gen

namespace Gen

/-- The main loop of tryAddPathWithOneWay preserves the invariant: a
successful run yields grown rooms together with a visited room that the
goal predicate accepted. -/
lemma tryAddPathLoop_inv (cfg : GenCfg) (P : GoalPred) :
    ∀ (fuel : Nat) (rooms : Rooms) (cur : Pos4) (count : Nat) (owe : Bool)
      (rng : List Nat) (r : Rooms) (rng2 : List Nat),
      Inv cfg rooms → inBounds cfg cur → (rooms cur).pathCount ≠ 0 → 0 < count →
      tryAddPathLoop cfg P fuel rooms cur count owe rng = (some r, rng2) →
      Inv cfg r ∧ roomsLe rooms r ∧
        ∃ p rm cnt, P p rm cnt = true ∧ (r p).pathCount ≠ 0 := by
  intro fuel
  induction fuel with
  | zero =>
    intro rooms cur count owe rng r rng2 _ _ _ _ h
    rw [tryAddPathLoop, Prod.mk.injEq] at h
    exact absurd h.1 (by simp)
  | succ fuel ih =>
    intro rooms cur count owe rng r rng2 hinv hb hv hcnt h
    rw [tryAddPathLoop] at h
    split_ifs at h with hP howe
    · rw [Prod.mk.injEq, Option.some.injEq] at h
      obtain ⟨h1, h2⟩ := h
      subst h1
      exact ⟨hinv, roomsLe_refl rooms, cur, rooms, count, hP, hv⟩
    · rw [Prod.mk.injEq] at h
      exact absurd h.1 (by simp)
    · rcases hsm : sampleMove cfg P rooms cur count 100 rng with ⟨o, rngA⟩
      rw [hsm] at h
      rcases o with _ | trip
      · dsimp only at h
        rw [Prod.mk.injEq] at h
        exact absurd h.1 (by simp)
      · obtain ⟨next, ow, gr⟩ := trip
        dsimp only at h
        rcases hapm : applyPassage cfg rooms cur next ow with _ | r1
        · rw [hapm] at h
          dsimp only at h
          rw [Prod.mk.injEq] at h
          exact absurd h.1 (by simp)
        · rw [hapm] at h
          dsimp only at h
          obtain ⟨hss, hPn⟩ := sampleMove_spec cfg P rooms cur count 100 rng next ow gr
            rngA hsm
          have hbn : inBounds cfg next := stepShape_inBounds cfg cur next hb hss
          obtain ⟨hi2, hle2, hv2⟩ := step_inv cfg rooms r1 cur next ow count hcnt hinv hb
            hv hss hapm
          split_ifs at h with hgr howe
          · rw [Prod.mk.injEq, Option.some.injEq] at h
            obtain ⟨he, _⟩ := h
            subst he
            exact ⟨hi2, hle2, next, rooms, count + 1, hPn hgr, hv2⟩
          · rw [Prod.mk.injEq] at h
            exact absurd h.1 (by simp)
          · obtain ⟨hi3, hle3, hex⟩ := ih (applyStamp cfg r1 cur next count) next
              (count + 1) (owe || ow) rngA r rng2 hi2 hbn hv2 (Nat.succ_pos count) h
            exact ⟨hi3, roomsLe_trans hle2 hle3, hex⟩

/-- tryAddPathWithOneWay preserves the invariant. -/
lemma tryAddPathWithOneWay_inv (cfg : GenCfg) (P : GoalPred) (fuel : Nat) (rooms : Rooms)
    (cur : Pos4) (rng : List Nat) (r : Rooms) (rng2 : List Nat)
    (hinv : Inv cfg rooms) (hb : inBounds cfg cur) (hv : (rooms cur).pathCount ≠ 0)
    (h : tryAddPathWithOneWay cfg P fuel rooms cur rng = (some r, rng2)) :
    Inv cfg r ∧ roomsLe rooms r ∧
      ∃ p rm cnt, P p rm cnt = true ∧ (r p).pathCount ≠ 0 := by
  rw [tryAddPathWithOneWay] at h
  exact tryAddPathLoop_inv cfg P fuel rooms cur ((rooms cur).pathCount) false rng r rng2
    hinv hb hv (Nat.pos_of_ne_zero hv) h

lemma randIntN_fst_lt (n : Nat) (l : List Nat) (hn : 0 < n) : (randIntN n l).1 < n := by
  cases l with
  | nil => exact hn
  | cons a t => exact Nat.mod_lt a hn

/-- A successful pickStart returns an in-range visited room. -/
lemma pickStart_spec (cfg : GenCfg) (rooms : Rooms)
    (hW : 0 < cfg.width) (hH : 0 < cfg.height) (hD0 : 0 < cfg.depth0)
    (hD1 : 0 < cfg.depth1) :
    ∀ (fuel : Nat) (rng : List Nat) (p : Pos4) (rng2 : List Nat),
      pickStart cfg rooms fuel rng = some (p, rng2) →
      inBounds cfg p ∧ (rooms p).pathCount ≠ 0 := by
  intro fuel
  induction fuel with
  | zero =>
    intro rng p rng2 h
    rw [pickStart] at h
    exact Option.noConfusion h
  | succ fuel ih =>
    intro rng p rng2 h
    rw [pickStart] at h
    split_ifs at h with hvp
    · rw [Option.some.injEq, Prod.mk.injEq] at h
      obtain ⟨hp, _⟩ := h
      subst hp
      refine ⟨⟨randIntN_fst_lt _ _ hW, randIntN_fst_lt _ _ hH, randIntN_fst_lt _ _ hD0,
        randIntN_fst_lt _ _ hD1⟩, ?_⟩
      simpa using hvp
    · exact ih _ _ _ h

/-- The branch loop preserves the invariant and only exits successfully
once enough rooms are visited. -/
lemma branchLoop_inv (cfg : GenCfg) (tfuel pfuel : Nat)
    (hW : 0 < cfg.width) (hH : 0 < cfg.height) (hD0 : 0 < cfg.depth0)
    (hD1 : 0 < cfg.depth1) :
    ∀ (bfuel : Nat) (rooms : Rooms) (failCount : Nat) (rng : List Nat) (r : Rooms),
      Inv cfg rooms →
      branchLoop cfg tfuel pfuel bfuel rooms failCount rng = some r →
      Inv cfg r ∧ roomsLe rooms r ∧ areEnoughRoomsVisited cfg r = true := by
  intro bfuel
  induction bfuel with
  | zero =>
    intro rooms failCount rng r _ h
    rw [branchLoop] at h
    exact Option.noConfusion h
  | succ bfuel ih =>
    intro rooms failCount rng r hinv h
    rw [branchLoop] at h
    split_ifs at h with hen hfc
    · rw [Option.some.injEq] at h
      subst h
      exact ⟨hinv, roomsLe_refl rooms, hen⟩
    · rcases hps : pickStart cfg rooms pfuel rng with _ | pr
      · rw [hps] at h
        exact Option.noConfusion h
      · obtain ⟨start, rng1⟩ := pr
        rw [hps] at h
        dsimp only at h
        obtain ⟨hbs, hvs⟩ := pickStart_spec cfg rooms hW hH hD0 hD1 pfuel rng start rng1
          hps
        rcases hta : tryAddPathWithOneWay cfg
            (branchGoalPred start ((rooms start).pathCount)) tfuel rooms start rng1
          with ⟨o2, rng2⟩
        rw [hta] at h
        rcases o2 with _ | r2
        · dsimp only at h
          exact Option.noConfusion h
        · dsimp only at h
          obtain ⟨hi2, hle2, hex2⟩ := tryAddPathWithOneWay_inv cfg _ tfuel rooms start
            rng1 r2 rng2 hinv hbs hvs hta
          obtain ⟨hi3, hle3, hen3⟩ := ih r2 0 rng2 r hi2 h
          exact ⟨hi3, roomsLe_trans hle2 hle3, hen3⟩
    · rcases hps : pickStart cfg rooms pfuel rng with _ | pr
      · rw [hps] at h
        exact Option.noConfusion h
      · obtain ⟨start, rng1⟩ := pr
        rw [hps] at h
        dsimp only at h
        obtain ⟨hbs, hvs⟩ := pickStart_spec cfg rooms hW hH hD0 hD1 pfuel rng start rng1
          hps
        rcases hta : tryAddPathWithOneWay cfg
            (branchGoalPred start ((rooms start).pathCount)) tfuel rooms start rng1
          with ⟨o2, rng2⟩
        rw [hta] at h
        rcases o2 with _ | r2
        · dsimp only at h
          exact ih rooms (failCount + 1) rng2 r hinv h
        · dsimp only at h
          obtain ⟨hi2, hle2, hex2⟩ := tryAddPathWithOneWay_inv cfg _ tfuel rooms start
            rng1 r2 rng2 hinv hbs hvs hta
          obtain ⟨hi3, hle3, hen3⟩ := ih r2 0 rng2 r hi2 h
          exact ⟨hi3, roomsLe_trans hle2 hle3, hen3⟩

end Gen

namespace Gen

/-- C1 (amended): a successful generateRooms run on a non-degenerate grid
yields a room graph in which the goal room is reachable from the start
room through non-wall passages, and at least width*height*depth0*depth1*8/10
rooms (integer floor division, not a true 80 percent) are visited. -/
theorem generateRooms_goal_connected_and_coverage (cfg : GenCfg)
    (tfuel pfuel bfuel : Nat) (rng : List Nat) (r : Rooms)
    (hW : 0 < cfg.width) (hH : 0 < cfg.height) (hD0 : 0 < cfg.depth0)
    (hD1 : 0 < cfg.depth1)
    (h : generateRooms cfg tfuel pfuel bfuel rng = some r) :
    conn cfg r startPos (goalPos cfg) ∧
      countVisited cfg r ≥ cfg.width * cfg.height * cfg.depth0 * cfg.depth1 * 8 / 10 := by
  rw [generateRooms] at h
  dsimp only at h
  rcases hta : tryAddPathWithOneWay cfg (mainGoalPred cfg) tfuel
      (setRoom (fun _ => Room.default) startPos fun rm => { rm with pathCount := 1 })
      startPos rng with ⟨o1, rng1⟩
  rw [hta] at h
  rcases o1 with _ | rm1
  · exact Option.noConfusion h
  · dsimp only at h
    have hinv1 : Inv cfg (setRoom (fun _ => Room.default) startPos
        fun rm => { rm with pathCount := 1 }) := by
      intro p hp
      rw [setRoom_apply] at hp
      split_ifs at hp with hps
      · subst hps
        exact ⟨⟨hW, hH, hD0, hD1⟩, Relation.ReflTransGen.refl⟩
      · exact absurd rfl hp
    have hv1 : ((setRoom (fun _ => Room.default) startPos
        fun rm => { rm with pathCount := 1 }) startPos).pathCount ≠ 0 := by
      rw [setRoom_apply, if_pos rfl]
      exact Nat.one_ne_zero
    obtain ⟨hi1, hle1, p0, rm0, cnt0, hP0, hvp0⟩ :=
      tryAddPathWithOneWay_inv cfg (mainGoalPred cfg) tfuel _ startPos rng rm1 rng1
        hinv1 ⟨hW, hH, hD0, hD1⟩ hv1 hta
    have hp0 : p0 = goalPos cfg := by
      simpa [mainGoalPred] using hP0
    subst hp0
    have hle2 : roomsLe rm1 (setRoom rm1 (goalPos cfg) fun rm =>
        { rm with passageY := Passage.passable }) := by
      intro p
      rw [setRoom_apply]
      split_ifs with hp
      · subst hp
        exact roomLe_openY _ _ (by decide)
      · exact roomLe_refl _
    have hinv2 : Inv cfg (setRoom rm1 (goalPos cfg) fun rm =>
        { rm with passageY := Passage.passable }) := by
      refine Inv_mono hi1 hle2 ?_
      intro p hp
      rw [setRoom_apply] at hp
      split_ifs at hp with hps
      · subst hps
        exact hp
      · exact hp
    have hvg2 : ((setRoom rm1 (goalPos cfg) fun rm =>
        { rm with passageY := Passage.passable }) (goalPos cfg)).pathCount ≠ 0 := by
      rw [setRoom_apply, if_pos rfl]
      exact hvp0
    obtain ⟨hi3, hle3, hen3⟩ := branchLoop_inv cfg tfuel pfuel hW hH hD0 hD1 bfuel _ 0
      rng1 r hinv2 h
    have hvr : (r (goalPos cfg)).pathCount ≠ 0 := (hle3 (goalPos cfg)).2.2.2.2 hvg2
    refine ⟨(hi3 (goalPos cfg) hvr).2, ?_⟩
    have h9 := hen3
    rw [areEnoughRoomsVisited] at h9
    exact of_decide_eq_true h9

/-- C1 witness: the amended theorem instantiated on a successful concrete
2x2x1x1 generation run. -/
theorem generateRooms_goal_connected_and_coverage_witness :
    (generateRooms ⟨2, 2, 1, 1⟩ 10 10 10 [3, 9, 0]).elim False (fun r =>
      conn ⟨2, 2, 1, 1⟩ r startPos (goalPos ⟨2, 2, 1, 1⟩) ∧
        countVisited ⟨2, 2, 1, 1⟩ r ≥ 2 * 2 * 1 * 1 * 8 / 10) := by
  rcases hr : generateRooms ⟨2, 2, 1, 1⟩ 10 10 10 [3, 9, 0] with _ | r
  · have hk : (generateRooms ⟨2, 2, 1, 1⟩ 10 10 10 [3, 9, 0]).isSome = true := rfl
    rw [hr] at hk
    exact Bool.noConfusion hk
  · exact generateRooms_goal_connected_and_coverage ⟨2, 2, 1, 1⟩ 10 10 10 [3, 9, 0] r
      (by decide) (by decide) (by decide) (by decide) hr

/-- C1 counterexample: the generator can stop below a true 80 percent visit
ratio; on a 2x2x1x1 grid a successful run visits 3 of the 4 rooms (75
percent), since the Go threshold total*8/10 rounds 3.2 down to 3. -/
theorem generateRooms_eighty_percent_cex :
    ¬ (∀ (cfg : GenCfg) (tfuel pfuel bfuel : Nat) (rng : List Nat) (r : Rooms),
        generateRooms cfg tfuel pfuel bfuel rng = some r →
        10 * countVisited cfg r ≥
          8 * (cfg.width * cfg.height * cfg.depth0 * cfg.depth1)) := by
  intro hall
  have hmap : (generateRooms ⟨2, 2, 1, 1⟩ 10 10 10 [3, 9, 0]).map
      (countVisited ⟨2, 2, 1, 1⟩) = some 3 := rfl
  rcases hr : generateRooms ⟨2, 2, 1, 1⟩ 10 10 10 [3, 9, 0] with _ | r
  · rw [hr] at hmap
    exact Option.noConfusion hmap
  · rw [hr] at hmap
    have hcv : countVisited ⟨2, 2, 1, 1⟩ r = 3 := Option.some.inj hmap
    have h10 : (30 : Nat) ≥ 32 := by
      have h11 := hall ⟨2, 2, 1, 1⟩ 10 10 10 [3, 9, 0] r hr
      rw [hcv] at h11
      exact h11
    omega

end Gen

namespace Gen

/-- Rooms whose rightmost column carries no open x-passage. -/
def XWall (cfg : GenCfg) (r : Rooms) : Prop :=
  ∀ q : Pos4, q.x = cfg.width - 1 → (r q).passageX = Passage.wall

/-- applyStamp never changes an x-passage. -/
lemma applyStamp_passageX (cfg : GenCfg) (r1 : Rooms) (cur next : Pos4) (count : Nat)
    (q : Pos4) : ((applyStamp cfg r1 cur next count) q).passageX = (r1 q).passageX := by
  unfold applyStamp
  split_ifs with h1 h2
  · rw [stampZColumn_apply]
    split <;> rfl
  · rw [stampWColumn_apply]
    split <;> rfl
  · rw [setRoom_apply]
    split
    · next hqn =>
      subst hqn
      rfl
    · rfl

/-- The passage write of an accepted step never changes the x-passage of a
room on the rightmost column: a step to the right writes passageX at
x + 1 < width and a step to the left writes it at x - 1 with x < width. -/
lemma applyPassage_passageX_rightmost (cfg : GenCfg) (rooms r1 : Rooms) (cur next : Pos4)
    (ow : Bool) (hb : inBounds cfg cur) (hs : StepShape cfg cur next)
    (hap : applyPassage cfg rooms cur next ow = some r1)
    (q : Pos4) (hq : q.x = cfg.width - 1) :
    (r1 q).passageX = (rooms q).passageX := by
  obtain ⟨cx, cy, cz, cw⟩ := cur
  obtain ⟨hx0, hy0, hz0, hw0⟩ := hb
  have hx : cx < cfg.width := hx0
  have hz : cz < cfg.depth0 := hz0
  rcases hs with rfl | ⟨hc, rfl⟩ | ⟨hc, rfl⟩ | ⟨hc, rfl⟩ | ⟨hc, rfl⟩ | rfl | rfl
  · rw [applyPassage] at hap
    dsimp only at hap
    rw [if_neg (Nat.lt_irrefl cx), if_neg (Nat.lt_irrefl cx), if_neg (Nat.lt_irrefl cy),
      if_neg (Nat.lt_irrefl cy), if_neg (fun hcc => hcc rfl), if_neg (fun hcc => hcc rfl),
      Option.some.injEq] at hap
    subst hap
    rfl
  · have hc1 : 0 < cx := hc
    rw [applyPassage] at hap
    dsimp only at hap
    rw [if_neg (by omega : ¬ cx < cx - 1), if_pos (by omega : cx - 1 < cx),
      Option.some.injEq] at hap
    subst hap
    rw [setRoom_apply]
    split
    · next hqc =>
      rw [hqc] at hq
      have hcc : cx - 1 = cfg.width - 1 := hq
      exact absurd hcc (by omega)
    · rfl
  · have hc1 : cx + 1 < cfg.width := hc
    rw [applyPassage] at hap
    dsimp only at hap
    rw [if_pos (Nat.lt_succ_self cx), Option.some.injEq] at hap
    subst hap
    rw [setRoom_apply]
    split
    · next hqc =>
      rw [hqc] at hq
      have hcc : cx = cfg.width - 1 := hq
      exact absurd hcc (by omega)
    · rfl
  · have hc1 : 0 < cy := hc
    rw [applyPassage] at hap
    dsimp only at hap
    rw [if_neg (Nat.lt_irrefl cx), if_neg (Nat.lt_irrefl cx),
      if_neg (by omega : ¬ cy < cy - 1), if_pos (by omega : cy - 1 < cy)] at hap
    obtain ⟨w1, w2, w3⟩ := writeYBwd_spec rooms cx (cy - 1) cz cw cw ow cfg.depth0 r1 hap
    by_cases hp : q = ⟨cx, cy - 1, cz, cw⟩
    · rw [hp, w2 ⟨hz, rfl⟩]
    · rw [w1 q hp]
  · rw [applyPassage] at hap
    dsimp only at hap
    rw [if_neg (Nat.lt_irrefl cx), if_neg (Nat.lt_irrefl cx),
      if_pos (Nat.lt_succ_self cy)] at hap
    obtain ⟨w1, w2, w3⟩ := writeYFwd_spec rooms cx cy cz cw cw ow cfg.depth0 r1 hap
    by_cases hp : q = ⟨cx, cy, cz, cw⟩
    · rw [hp, w2 ⟨hz, rfl⟩]
    · rw [w1 q hp]
  · by_cases hzz : (cz + 1) % cfg.depth0 = cz
    · rw [hzz] at hap
      rw [applyPassage] at hap
      dsimp only at hap
      rw [if_neg (Nat.lt_irrefl cx), if_neg (Nat.lt_irrefl cx), if_neg (Nat.lt_irrefl cy),
        if_neg (Nat.lt_irrefl cy), if_neg (fun hcc => hcc rfl),
        if_neg (fun hcc => hcc rfl), Option.some.injEq] at hap
      subst hap
      rfl
    · rw [applyPassage] at hap
      dsimp only at hap
      rw [if_neg (Nat.lt_irrefl cx), if_neg (Nat.lt_irrefl cx), if_neg (Nat.lt_irrefl cy),
        if_neg (Nat.lt_irrefl cy), if_pos (fun hcc => hzz hcc.symm),
        Option.some.injEq] at hap
      subst hap
      rw [setZColumn_apply]
      split <;> rfl
  · by_cases hww : (cw + 1) % cfg.depth1 = cw
    · rw [hww] at hap
      rw [applyPassage] at hap
      dsimp only at hap
      rw [if_neg (Nat.lt_irrefl cx), if_neg (Nat.lt_irrefl cx), if_neg (Nat.lt_irrefl cy),
        if_neg (Nat.lt_irrefl cy), if_neg (fun hcc => hcc rfl),
        if_neg (fun hcc => hcc rfl), Option.some.injEq] at hap
      subst hap
      rfl
    · rw [applyPassage] at hap
      dsimp only at hap
      rw [if_neg (Nat.lt_irrefl cx), if_neg (Nat.lt_irrefl cx), if_neg (Nat.lt_irrefl cy),
        if_neg (Nat.lt_irrefl cy), if_neg (fun hcc => hcc rfl),
        if_pos (fun hcc => hww hcc.symm), Option.some.injEq] at hap
      subst hap
      rw [setWColumn_apply]
      split <;> rfl

end Gen

namespace Gen

/-- The path loop never opens an x-passage on the rightmost room column. -/
lemma tryAddPathLoop_xwall (cfg : GenCfg) (P : GoalPred) :
    ∀ (fuel : Nat) (rooms : Rooms) (cur : Pos4) (count : Nat) (owe : Bool)
      (rng : List Nat) (r : Rooms) (rng2 : List Nat),
      inBounds cfg cur → XWall cfg rooms →
      tryAddPathLoop cfg P fuel rooms cur count owe rng = (some r, rng2) →
      XWall cfg r := by
  intro fuel
  induction fuel with
  | zero =>
    intro rooms cur count owe rng r rng2 _ _ h
    rw [tryAddPathLoop, Prod.mk.injEq] at h
    exact absurd h.1 (by simp)
  | succ fuel ih =>
    intro rooms cur count owe rng r rng2 hb hxw h
    rw [tryAddPathLoop] at h
    split_ifs at h with hP howe
    · rw [Prod.mk.injEq, Option.some.injEq] at h
      obtain ⟨h1, _⟩ := h
      subst h1
      exact hxw
    · rw [Prod.mk.injEq] at h
      exact absurd h.1 (by simp)
    · rcases hsm : sampleMove cfg P rooms cur count 100 rng with ⟨o, rngA⟩
      rw [hsm] at h
      rcases o with _ | trip
      · dsimp only at h
        rw [Prod.mk.injEq] at h
        exact absurd h.1 (by simp)
      · obtain ⟨next, ow, gr⟩ := trip
        dsimp only at h
        rcases hapm : applyPassage cfg rooms cur next ow with _ | r1
        · rw [hapm] at h
          dsimp only at h
          rw [Prod.mk.injEq] at h
          exact absurd h.1 (by simp)
        · rw [hapm] at h
          dsimp only at h
          obtain ⟨hss, _⟩ := sampleMove_spec cfg P rooms cur count 100 rng next ow gr
            rngA hsm
          have hbn : inBounds cfg next := stepShape_inBounds cfg cur next hb hss
          have hxw2 : XWall cfg (applyStamp cfg r1 cur next count) := by
            intro qq hqq
            rw [applyStamp_passageX,
              applyPassage_passageX_rightmost cfg rooms r1 cur next ow hb hss hapm qq hqq]
            exact hxw qq hqq
          split_ifs at h with hgr howe2
          · rw [Prod.mk.injEq, Option.some.injEq] at h
            obtain ⟨he, _⟩ := h
            subst he
            exact hxw2
          · rw [Prod.mk.injEq] at h
            exact absurd h.1 (by simp)
          · exact ih (applyStamp cfg r1 cur next count) next (count + 1) (owe || ow) rngA
              r rng2 hbn hxw2 h

/-- tryAddPathWithOneWay never opens an x-passage on the rightmost room
column. -/
lemma tryAddPathWithOneWay_xwall (cfg : GenCfg) (P : GoalPred) (fuel : Nat)
    (rooms : Rooms) (cur : Pos4) (rng : List Nat) (r : Rooms) (rng2 : List Nat)
    (hb : inBounds cfg cur) (hxw : XWall cfg rooms)
    (h : tryAddPathWithOneWay cfg P fuel rooms cur rng = (some r, rng2)) :
    XWall cfg r := by
  rw [tryAddPathWithOneWay] at h
  exact tryAddPathLoop_xwall cfg P fuel rooms cur ((rooms cur).pathCount) false rng r rng2
    hb hxw h

/-- The branch loop preserves the rightmost x-wall invariant. -/
lemma branchLoop_xwall (cfg : GenCfg) (tfuel pfuel : Nat)
    (hW : 0 < cfg.width) (hH : 0 < cfg.height) (hD0 : 0 < cfg.depth0)
    (hD1 : 0 < cfg.depth1) :
    ∀ (bfuel : Nat) (rooms : Rooms) (failCount : Nat) (rng : List Nat) (r : Rooms),
      XWall cfg rooms →
      branchLoop cfg tfuel pfuel bfuel rooms failCount rng = some r → XWall cfg r := by
  intro bfuel
  induction bfuel with
  | zero =>
    intro rooms failCount rng r _ h
    rw [branchLoop] at h
    exact Option.noConfusion h
  | succ bfuel ih =>
    intro rooms failCount rng r hxw h
    rw [branchLoop] at h
    split_ifs at h with hen hfc
    · rw [Option.some.injEq] at h
      subst h
      exact hxw
    · rcases hps : pickStart cfg rooms pfuel rng with _ | pr
      · rw [hps] at h
        exact Option.noConfusion h
      · obtain ⟨start, rng1⟩ := pr
        rw [hps] at h
        dsimp only at h
        rcases hta : tryAddPathWithOneWay cfg
            (branchGoalPred start ((rooms start).pathCount)) tfuel rooms start rng1
          with ⟨o2, rng2⟩
        rw [hta] at h
        rcases o2 with _ | r2
        · dsimp only at h
          exact Option.noConfusion h
        · dsimp only at h
          obtain ⟨hbs, _⟩ := pickStart_spec cfg rooms hW hH hD0 hD1 pfuel rng start rng1
            hps
          exact ih r2 0 rng2 r
            (tryAddPathWithOneWay_xwall cfg _ tfuel rooms start rng1 r2 rng2 hbs hxw hta)
            h
    · rcases hps : pickStart cfg rooms pfuel rng with _ | pr
      · rw [hps] at h
        exact Option.noConfusion h
      · obtain ⟨start, rng1⟩ := pr
        rw [hps] at h
        dsimp only at h
        rcases hta : tryAddPathWithOneWay cfg
            (branchGoalPred start ((rooms start).pathCount)) tfuel rooms start rng1
          with ⟨o2, rng2⟩
        rw [hta] at h
        rcases o2 with _ | r2
        · dsimp only at h
          exact ih rooms (failCount + 1) rng2 r hxw h
        · dsimp only at h
          obtain ⟨hbs, _⟩ := pickStart_spec cfg rooms hW hH hD0 hD1 pfuel rng start rng1
            hps
          exact ih r2 0 rng2 r
            (tryAddPathWithOneWay_xwall cfg _ tfuel rooms start rng1 r2 rng2 hbs hxw hta)
            h

/-- generateRooms never opens an x-passage on the rightmost room column:
every room graph handed to the tile compiler carries wall x-passages on
room column width - 1. -/
lemma generateRooms_xwall (cfg : GenCfg) (tfuel pfuel bfuel : Nat) (rng : List Nat)
    (r : Rooms) (hW : 0 < cfg.width) (hH : 0 < cfg.height) (hD0 : 0 < cfg.depth0)
    (hD1 : 0 < cfg.depth1)
    (h : generateRooms cfg tfuel pfuel bfuel rng = some r) : XWall cfg r := by
  rw [generateRooms] at h
  dsimp only at h
  rcases hta : tryAddPathWithOneWay cfg (mainGoalPred cfg) tfuel
      (setRoom (fun _ => Room.default) startPos fun rm => { rm with pathCount := 1 })
      startPos rng with ⟨o1, rng1⟩
  rw [hta] at h
  rcases o1 with _ | rm1
  · exact Option.noConfusion h
  · dsimp only at h
    have hxw1 : XWall cfg (setRoom (fun _ => Room.default) startPos
        fun rm => { rm with pathCount := 1 }) := by
      intro q _
      rw [setRoom_apply]
      split <;> rfl
    have hxw2 : XWall cfg rm1 := tryAddPathWithOneWay_xwall cfg (mainGoalPred cfg) tfuel
      _ startPos rng rm1 rng1 ⟨hW, hH, hD0, hD1⟩ hxw1 hta
    have hxw3 : XWall cfg (setRoom rm1 (goalPos cfg) fun rm =>
        { rm with passageY := Passage.passable }) := by
      intro q hq
      rw [setRoom_apply]
      split
      · next hqg =>
        subst hqg
        exact hxw2 _ hq
      · exact hxw2 q hq
    exact branchLoop_xwall cfg tfuel pfuel hW hH hD0 hD1 bfuel _ 0 rng1 r hxw3 h

end Gen
